import Mathlib

/-!
Verification of the comgo COMTRADE decoder (comgo.go).

The Go source is shallowly embedded:
* byte slices become `List Char` (text) and, for the binary sample buffer,
  `ByteSlice`: the visible bytes as a `List Nat` (each < 256) together with the
  spare capacity of the backing array, because Go slice expressions check their
  bounds against the capacity, not the length, and `ioutil.ReadAll` returns
  buffers whose capacity is at least `max(512, len)` with a zero-filled spare;
* `float64` values become exact rationals `ℚ` (the decimal literals appearing in
  configuration files are modelled exactly; IEEE rounding, `Inf`/`NaN` and hex
  float syntax are outside the model);
* Go `uint16` arithmetic wraps modulo 2 ^ 16, modelled with explicit `% 65536`;
* fallible Go functions return `Except GoErr`; Go runtime panics (index or slice
  out of range) are modelled by the dedicated constructors
  `GoErr.panicIndexOutOfRange` / `GoErr.panicSliceOutOfRange`, kept distinct
  from the typed `error` values the source returns.
-/

set_option allowUnsafeReducibility true in
attribute [semireducible] Rat.mul Rat.inv Rat.div Rat.add Rat.sub Rat.neg

instance {ε α : Type} [DecidableEq ε] [DecidableEq α] : DecidableEq (Except ε α) := fun x y =>
  match x, y with
  | .ok a, .ok b =>
    if h : a = b then .isTrue (by rw [h]) else .isFalse (fun hh => h (Except.ok.inj hh))
  | .error a, .error b =>
    if h : a = b then .isTrue (by rw [h]) else .isFalse (fun hh => h (Except.error.inj hh))
  | .ok _, .error _ => .isFalse (fun hh => Except.noConfusion hh)
  | .error _, .ok _ => .isFalse (fun hh => Except.noConfusion hh)

namespace Comgo

/-- ASCII whitespace recognised by Go `strings.TrimSpace` (Unicode spaces beyond
ASCII are not modelled; configuration files are ASCII). -/
def isSpaceChar (c : Char) : Bool :=
  c = ' ' || c = '\t' || c = '\n' || c = '\r' || c.toNat = 11 || c.toNat = 12

def trimLeft : List Char → List Char
  | [] => []
  | c :: cs => if isSpaceChar c then trimLeft cs else c :: cs

/-- Go `strings.TrimSpace`. -/
def trimSpace (s : List Char) : List Char :=
  (trimLeft (trimLeft s).reverse).reverse

/-- Go source: `ByteToString(b)` converts bytes to a string and trims whitespace. -/
def ByteToString (b : List Char) : List Char :=
  trimSpace b

/-- Go `bytes.Split(s, sep)` with a one-byte separator; on empty input it
returns one empty piece, as in Go. -/
def splitOnChar (sep : Char) : List Char → List (List Char)
  | [] => [[]]
  | c :: rest =>
    match splitOnChar sep rest with
    | [] => [[]]
    | h :: t => if c = sep then [] :: h :: t else (c :: h) :: t

/-- Go `bytes.Join(pieces, sep)` with a one-byte separator. -/
def joinWith (sep : Char) : List (List Char) → List Char
  | [] => []
  | [x] => x
  | x :: y :: ys => x ++ sep :: joinWith sep (y :: ys)

/-- Go `bytes.TrimSuffix(s, suf)` for a one-byte suffix: removes one trailing
copy when present. -/
def trimSuffixChar (c : Char) (s : List Char) : List Char :=
  if s.getLast? = some c then s.dropLast else s

def digitVal (c : Char) : Nat :=
  c.toNat - '0'.toNat

def natOfDigitsAux : List Char → Nat → Nat
  | [], acc => acc
  | c :: cs, acc => natOfDigitsAux cs (acc * 10 + digitVal c)

def natOfDigits (s : List Char) : Nat :=
  natOfDigitsAux s 0

/-- Errors and panics of the Go source.  The `err…` constructors stand for the
`errors.New` / `fmt.Errorf` values returned by the source; `numError` stands
for the `strconv` parse errors (carrying the offending text) and
`timeParseError` for `time.Parse` errors; the two `panic…` constructors model
Go runtime panics, which are untyped failures, not returned errors. -/
inductive GoErr where
  | errFirstLine (n : Nat)
  | errSecondLine (n : Nat)
  | errMissingAD
  | numError (s : List Char)
  | errAnalogRow (i : Nat)
  | errDigitRow (i : Nat)
  | timeParseError (s : List Char)
  | panicIndexOutOfRange
  | errNoData
  | errChannelTooBig
  | errChannelLessOne
  | errNoSampleDetail
  | panicSliceOutOfRange
  deriving DecidableEq

/-- Go `strconv.ParseUint(s, 10, bits)`: decimal digits only (no sign), value
must be representable in `bits` bits. -/
def parseUintBits (bits : Nat) (s : List Char) : Except GoErr Nat :=
  if !s.isEmpty && s.all Char.isDigit && decide (natOfDigits s < 2 ^ bits) then
    .ok (natOfDigits s)
  else
    .error (.numError s)

/-- Go `strconv.Atoi`: optional sign, decimal digits, must fit in a 64-bit int. -/
def parseGoInt (s : List Char) : Except GoErr Int :=
  let p : Int × List Char :=
    match s with
    | '+' :: rest => (1, rest)
    | '-' :: rest => (-1, rest)
    | _ => (1, s)
  let v : Int := p.1 * (natOfDigits p.2 : Int)
  if !p.2.isEmpty && p.2.all Char.isDigit
      && decide (-(2 ^ 63) ≤ v) && decide (v ≤ 2 ^ 63 - 1) then
    .ok v
  else
    .error (.numError s)

/-- Go `strconv.ParseFloat(s, 64)` on the decimal grammar
`[sign] digits [. digits] [(e|E) [sign] digits]` (at least one mantissa digit),
with the exact rational value.  `Inf`/`NaN`, hex floats, underscores and IEEE
rounding/overflow are outside the model. -/
def parseFloatQ (s : List Char) : Except GoErr ℚ :=
  let sp : ℚ × List Char :=
    match s with
    | '+' :: rest => (1, rest)
    | '-' :: rest => (-1, rest)
    | _ => (1, s)
  let ip := sp.2.takeWhile Char.isDigit
  let r2 := sp.2.dropWhile Char.isDigit
  let fr : List Char × List Char :=
    match r2 with
    | '.' :: rest => (rest.takeWhile Char.isDigit, rest.dropWhile Char.isDigit)
    | _ => ([], r2)
  let ex : Bool × Int × List Char × List Char :=
    match fr.2 with
    | 'e' :: rest =>
      match rest with
      | '+' :: r3 => (true, 1, r3.takeWhile Char.isDigit, r3.dropWhile Char.isDigit)
      | '-' :: r3 => (true, -1, r3.takeWhile Char.isDigit, r3.dropWhile Char.isDigit)
      | _ => (true, 1, rest.takeWhile Char.isDigit, rest.dropWhile Char.isDigit)
    | 'E' :: rest =>
      match rest with
      | '+' :: r3 => (true, 1, r3.takeWhile Char.isDigit, r3.dropWhile Char.isDigit)
      | '-' :: r3 => (true, -1, r3.takeWhile Char.isDigit, r3.dropWhile Char.isDigit)
      | _ => (true, 1, rest.takeWhile Char.isDigit, rest.dropWhile Char.isDigit)
    | _ => (false, 1, [], fr.2)
  if (!ip.isEmpty || !fr.1.isEmpty) && (!ex.1 || !ex.2.2.1.isEmpty) && ex.2.2.2.isEmpty then
    .ok (sp.1 * ((natOfDigits ip : ℚ) + (natOfDigits fr.1 : ℚ) / 10 ^ fr.1.length)
          * (10 : ℚ) ^ (ex.2.1 * (natOfDigits ex.2.2.1 : Int)))
  else
    .error (.numError s)

/-- Go conversion from float64 to an integer truncates toward zero. -/
def ratTrunc (q : ℚ) : Int :=
  Int.tdiv q.num (q.den : Int)

/-- Go conversion `uint16(n)` for an integer `n`: two's-complement truncation
modulo 2 ^ 16. -/
def uint16OfInt (n : Int) : Nat :=
  (n % 65536).toNat

/-- Go `uint16` arithmetic wraps modulo 2 ^ 16. -/
def m16 (n : Nat) : Nat :=
  n % 65536

/-- Sampling rate and sample count (Go `SampleRate`; `Number` is a Go `int`,
obtained by truncating a parsed float). -/
structure SampleRate where
  Rate : ℚ
  Number : Int
  deriving DecidableEq

/-- The value stored for a parsed `time.Time` (year/month/day and time of day
with microsecond precision); only the components the fixed layout
`02/01/2006T15:04:05.000000` can produce are modelled. -/
structure Timestamp where
  day : Nat
  month : Nat
  year : Nat
  hour : Nat
  minute : Nat
  second : Nat
  micro : Nat
  deriving DecidableEq

/-- Analog channel table (Go `ChannelA`).  The Go field
`ConversionFactors map[string][]float64` only ever holds the keys `"a"` and
`"b"`; it is modelled by the two lists `FactorsA` and `FactorsB`. -/
structure ChannelA where
  ChannelTotal : Nat
  ChannelNumber : List Nat
  ChannelNames : List (List Char)
  ChannelPhases : List (List Char)
  ChannelElements : List (List Char)
  ChannelUnits : List (List Char)
  FactorsA : List ℚ
  FactorsB : List ℚ
  TimeFactors : List ℚ
  ValueMin : List Int
  ValueMax : List Int
  Primary : List ℚ
  Secondary : List ℚ
  IsSecondaryMeasurement : List Bool
  deriving DecidableEq

/-- Digital channel table (Go `ChannelD`). -/
structure ChannelD where
  ChannelTotal : Nat
  ChannelNumber : List Nat
  ChannelNames : List (List Char)
  ChannelPhases : List (List Char)
  ChannelElements : List (List Char)
  InitialState : List Nat
  deriving DecidableEq

/-- A Go byte slice as held for the binary sample buffer: the visible bytes and
the spare capacity of the backing array beyond the length, so
`cap = data.length + extraCap` and `len ≤ cap` holds by construction, as for
every Go slice.  A slice expression `b[low:high]` checks `high` against the
CAPACITY, not the length; the bytes between the length and the capacity of a
buffer returned by `ioutil.ReadAll` are the zero bytes of its freshly
allocated backing array (`ReadAll` starts from `make([]byte, 0, 512)` and only
ever appends, so its capacity is at least `max(512, len)`), and reading them
through a larger slice yields 0. -/
structure ByteSlice where
  data : List Nat
  extraCap : Nat
  deriving DecidableEq

/-- Go `cap(b)` for the modelled byte slice. -/
def ByteSlice.cap (b : ByteSlice) : Nat :=
  b.data.length + b.extraCap

/-- Configuration (Go `CFG`).  Pointer fields that are `nil` before decoding are
modelled by the zero values below; a decoded configuration always carries both
channel tables, as in the source after a successful `ReadCFG`. -/
structure CFG where
  StationName : List Char
  RecordDeviceId : List Char
  RevisionYear : Nat
  ChannelNumber : Nat
  AnalogDetail : ChannelA
  DigitDetail : ChannelD
  LineFrequency : Nat
  SampleRateNum : Nat
  SampleDetail : List SampleRate
  StartTime : Timestamp
  TriggerTime : Timestamp
  DataFileType : List Char
  TimeFactor : ℚ
  TimeCode : List Char
  LocalCode : List Char
  DataFileContent : ByteSlice
  deriving DecidableEq

def emptyChannelA : ChannelA :=
  ⟨0, [], [], [], [], [], [], [], [], [], [], [], [], []⟩

def emptyChannelD : ChannelD :=
  ⟨0, [], [], [], [], []⟩

def zeroTimestamp : Timestamp :=
  ⟨0, 0, 0, 0, 0, 0, 0⟩

/-- Go `NewCFG()` returns the zero configuration. -/
def NewCFG : CFG :=
  ⟨[], [], 0, 0, emptyChannelA, emptyChannelD, 0, 0, [], zeroTimestamp, zeroTimestamp,
    [], 0, [], [], ⟨[], 0⟩⟩

/-- Go slice indexing `lines[i]`: a runtime panic when out of range (the source
performs no bounds check on line indices). -/
def getLine (lines : List (List Char)) (i : Nat) : Except GoErr (List Char) :=
  match lines[i]? with
  | some l => .ok l
  | none => .error .panicIndexOutOfRange

/-- Go slice indexing `tempList[i]` on a split line, for the places where the
source indexes a field without a length check. -/
def getField (l : List (List Char)) (i : Nat) : Except GoErr (List Char) :=
  match l[i]? with
  | some f => .ok f
  | none => .error .panicIndexOutOfRange

/-- Go line 554 / 620: `ByteToString(bytes.Join(bytes.Split(name, " "), "_"))` —
the name field is split on spaces and joined with underscores first, and only
then trimmed. -/
def goFormatName (b : List Char) : List Char :=
  ByteToString (joinWith '_' (splitOnChar ' ' b))

/-- Optional 11th analog field (Go 590–594): the primary ratio is appended only
when it parses; a parse failure is silently skipped. -/
def analogOpt1 (t : List (List Char)) (a : ChannelA) : ChannelA :=
  if 10 < t.length then
    match parseFloatQ (ByteToString (t.getD 10 [])) with
    | .ok p => { a with Primary := a.Primary ++ [p] }
    | .error _ => a
  else a

/-- Optional 12th analog field (Go 595–599): the secondary ratio, same
silent-skip behaviour. -/
def analogOpt2 (t : List (List Char)) (a : ChannelA) : ChannelA :=
  if 11 < t.length then
    match parseFloatQ (ByteToString (t.getD 11 [])) with
    | .ok p => { a with Secondary := a.Secondary ++ [p] }
    | .error _ => a
  else a

/-- Optional 13th analog field (Go 600–606): case-insensitive `s` marks a
secondary measurement. -/
def analogOpt3 (t : List (List Char)) (a : ChannelA) : ChannelA :=
  if 12 < t.length then
    { a with IsSecondaryMeasurement := a.IsSecondaryMeasurement ++
        [(ByteToString (t.getD 12 [])).map Char.toLower == ['s']] }
  else a

/-- One iteration of the analog-channel loop (Go lines 543–607), processing the
comma-split fields `t` of the line for channel index `i`. -/
def processAnalogRowT (i : Nat) (t : List (List Char)) (acc : ChannelA) :
    Except GoErr ChannelA :=
  if t.length < 10 then .error (.errAnalogRow i) else do
  let num ← parseGoInt (ByteToString (t.getD 0 []))
  let fa ← parseFloatQ (ByteToString (t.getD 5 []))
  let fb ← parseFloatQ (ByteToString (t.getD 6 []))
  let tf ← parseFloatQ (ByteToString (t.getD 7 []))
  let vmin ← parseGoInt (ByteToString (t.getD 8 []))
  let vmax ← parseGoInt (ByteToString (t.getD 9 []))
  let acc1 := { acc with
    ChannelNumber := acc.ChannelNumber ++ [uint16OfInt num],
    ChannelNames := acc.ChannelNames ++ [goFormatName (t.getD 1 [])],
    ChannelPhases := acc.ChannelPhases ++ [ByteToString (t.getD 2 [])],
    ChannelElements := acc.ChannelElements ++ [ByteToString (t.getD 3 [])],
    ChannelUnits := acc.ChannelUnits ++ [ByteToString (t.getD 4 [])],
    FactorsA := acc.FactorsA ++ [fa],
    FactorsB := acc.FactorsB ++ [fb],
    TimeFactors := acc.TimeFactors ++ [tf],
    ValueMin := acc.ValueMin ++ [vmin],
    ValueMax := acc.ValueMax ++ [vmax] }
  return analogOpt3 t (analogOpt2 t (analogOpt1 t acc1))

/-- Analog row processing: split the fetched line on commas (Go line 544). -/
def processAnalogRow (i : Nat) (line : List Char) (acc : ChannelA) :
    Except GoErr ChannelA :=
  processAnalogRowT i (splitOnChar ',' line) acc

/-- Go 630–638: the initial state is parsed as an 8-bit unsigned integer when a
fifth field is present (a parse failure aborts), and defaults to the sentinel 2
when absent. -/
def digitInitState (t : List (List Char)) : Except GoErr Nat :=
  if 4 < t.length then parseUintBits 8 (ByteToString (t.getD 4 [])) else .ok 2

/-- One iteration of the digital-channel loop (Go lines 610–639), on the
comma-split fields of the line. -/
def processDigitRowT (i : Nat) (t : List (List Char)) (acc : ChannelD) :
    Except GoErr ChannelD :=
  if t.length < 3 then .error (.errDigitRow i) else do
  let num ← parseGoInt (ByteToString (t.getD 0 []))
  let st ← digitInitState t
  return { acc with
    ChannelNumber := acc.ChannelNumber ++ [uint16OfInt num],
    ChannelNames := acc.ChannelNames ++ [goFormatName (t.getD 1 [])],
    ChannelPhases := acc.ChannelPhases ++ [ByteToString (t.getD 2 [])],
    ChannelElements := acc.ChannelElements ++
      [if 3 < t.length then ByteToString (t.getD 3 []) else []],
    InitialState := acc.InitialState ++ [st] }

/-- Digital row processing: split the fetched line on commas (Go line 611). -/
def processDigitRow (i : Nat) (line : List Char) (acc : ChannelD) :
    Except GoErr ChannelD :=
  processDigitRowT i (splitOnChar ',' line) acc

/-- Analog-channel loop: `rem` iterations remaining, next channel index `i`,
reading line `2 + i` each iteration (Go `int` arithmetic, no wrap). -/
def readAnalogLoop (lines : List (List Char)) :
    Nat → Nat → ChannelA → Except GoErr ChannelA
  | 0, _, acc => .ok acc
  | rem + 1, i, acc => do
    let line ← getLine lines (2 + i)
    let acc' ← processAnalogRow i line acc
    readAnalogLoop lines rem (i + 1) acc'

/-- Digital-channel loop, reading line `2 + aTot + i` (Go `int` arithmetic). -/
def readDigitLoop (lines : List (List Char)) (aTot : Nat) :
    Nat → Nat → ChannelD → Except GoErr ChannelD
  | 0, _, acc => .ok acc
  | rem + 1, i, acc => do
    let line ← getLine lines (2 + aTot + i)
    let acc' ← processDigitRow i line acc
    readDigitLoop lines aTot rem (i + 1) acc'

/-- Go 499–505: the revision year is parsed only when a third field is present;
otherwise the zero value 0 is kept. -/
def revYearField (t : List (List Char)) : Except GoErr Nat :=
  if 2 < t.length then parseUintBits 16 (ByteToString (t.getD 2 [])) else .ok 0

/-- First line on its comma-split fields `t`: station name, device id, optional
revision year (Go 492–505). -/
def readLine0T (t : List (List Char)) :
    Except GoErr (List Char × List Char × Nat) :=
  if t.length < 2 then .error (.errFirstLine t.length) else do
  let rev ← revYearField t
  return (ByteToString (t.getD 0 []), ByteToString (t.getD 1 []), rev)

def readLine0 (lines : List (List Char)) :
    Except GoErr (List Char × List Char × Nat) := do
  let l0 ← getLine lines 0
  readLine0T (splitOnChar ',' l0)

/-- Second line on its comma-split fields `t`: total channel count and the
`…A`/`…D` tagged analog and digital totals (Go 507–540). -/
def readLine1T (t : List (List Char)) : Except GoErr (Nat × Nat × Nat) :=
  if t.length < 3 then .error (.errSecondLine t.length) else do
  let total ← parseUintBits 16 (ByteToString (t.getD 0 []))
  if !((t.getD 1 []).contains 'A' && (t.getD 2 []).contains 'D') then
    .error .errMissingAD
  else do
    let aTot ← parseUintBits 16 (trimSuffixChar 'A' (trimSpace (t.getD 1 [])))
    let dTot ← parseUintBits 16 (trimSuffixChar 'D' (trimSpace (t.getD 2 [])))
    return (total, aTot, dTot)

def readLine1 (lines : List (List Char)) : Except GoErr (Nat × Nat × Nat) := do
  let l1 ← getLine lines 1
  readLine1T (splitOnChar ',' l1)

/-- State after the header lines and both channel loops. -/
structure HeaderState where
  station : List Char
  device : List Char
  revYear : Nat
  chanTotal : Nat
  chA : ChannelA
  chD : ChannelD
  deriving DecidableEq

/-- Go lines 483–639: header lines plus the two channel loops. -/
def readUpToChannels (lines : List (List Char)) : Except GoErr HeaderState := do
  let h0 ← readLine0 lines
  let h1 ← readLine1 lines
  let chA ← readAnalogLoop lines h1.2.1 0 { emptyChannelA with ChannelTotal := h1.2.1 }
  let chD ← readDigitLoop lines h1.2.1 h1.2.2 0 { emptyChannelD with ChannelTotal := h1.2.2 }
  return ⟨h0.1, h0.2.1, h0.2.2, h1.1, chA, chD⟩

/-- Line frequency (Go 641–647); the index `2 + A + D` is computed in `uint16`
arithmetic, and the parsed float is converted with `uint16(...)`. -/
def readFreq (lines : List (List Char)) (aTot dTot : Nat) : Except GoErr Nat := do
  let l ← getLine lines (m16 (2 + aTot + dTot))
  let q ← parseFloatQ (ByteToString ((splitOnChar ',' l).getD 0 []))
  return uint16OfInt (ratTrunc q)

/-- Sample-rate entry count (Go 649–662) with the documented coercion of a
declared `0` to `1`. -/
def readRateNum (lines : List (List Char)) (aTot dTot : Nat) : Except GoErr Nat := do
  let l ← getLine lines (m16 (3 + aTot + dTot))
  let n ← parseUintBits 16 (ByteToString ((splitOnChar ',' l).getD 0 []))
  return (if n = 0 then 1 else n)

/-- Sample-rate block loop (Go 664–679); line index `4 + i + A + D` in `int`
arithmetic; the second field is indexed without a length check. -/
def readRatesLoop (lines : List (List Char)) (aTot dTot : Nat) :
    Nat → Nat → List SampleRate → Except GoErr (List SampleRate)
  | 0, _, acc => .ok acc
  | rem + 1, i, acc => do
    let l ← getLine lines (4 + i + aTot + dTot)
    let r ← parseFloatQ (ByteToString ((splitOnChar ',' l).getD 0 []))
    let f1 ← getField (splitOnChar ',' l) 1
    let n ← parseFloatQ (ByteToString f1)
    readRatesLoop lines aTot dTot rem (i + 1) (acc ++ [⟨r, ratTrunc n⟩])

def isLeapYear (y : Nat) : Bool :=
  y % 4 == 0 && (y % 100 != 0 || y % 400 == 0)

def daysInMonth (m y : Nat) : Nat :=
  if m = 2 then (if isLeapYear y then 29 else 28)
  else if m = 4 ∨ m = 6 ∨ m = 9 ∨ m = 11 then 30
  else 31

/-- Go `time.Parse` against the fixed layout `02/01/2006T15:04:05.000000`
(`TimeFormat` in the source): two-digit day, `/`, two-digit month, `/`,
four-digit year, literal `T`, two-digit hour, `:`, minute, `:`, second, `.`,
exactly six fractional digits; `time.Parse` then validates the ranges
(month 1–12, day 1–daysInMonth, hour ≤ 23, minute ≤ 59, second ≤ 59). -/
def parseTimestamp (s : List Char) : Except GoErr Timestamp :=
  match s with
  | [d1, d2, '/', m1, m2, '/', y1, y2, y3, y4, 'T',
     h1, h2, ':', n1, n2, ':', s1, s2, '.', f1, f2, f3, f4, f5, f6] =>
    if ([d1, d2, m1, m2, y1, y2, y3, y4, h1, h2, n1, n2, s1, s2,
         f1, f2, f3, f4, f5, f6].all Char.isDigit) = true then
      let dd := 10 * digitVal d1 + digitVal d2
      let mm := 10 * digitVal m1 + digitVal m2
      let yy := natOfDigits [y1, y2, y3, y4]
      let hh := 10 * digitVal h1 + digitVal h2
      let mi := 10 * digitVal n1 + digitVal n2
      let ss := 10 * digitVal s1 + digitVal s2
      let mic := natOfDigits [f1, f2, f3, f4, f5, f6]
      if 1 ≤ mm ∧ mm ≤ 12 ∧ 1 ≤ dd ∧ dd ≤ daysInMonth mm yy ∧
         hh ≤ 23 ∧ mi ≤ 59 ∧ ss ≤ 59 then
        .ok ⟨dd, mm, yy, hh, mi, ss, mic⟩
      else
        .error (.timeParseError s)
    else
      .error (.timeParseError s)
  | _ => .error (.timeParseError s)

/-- Timestamp line (Go 681–695): the line is split on commas, the pieces are
joined with a literal `T`, trimmed, and parsed against the fixed layout
`02/01/2006T15:04:05.000000`. -/
def readTimeLine (lines : List (List Char)) (idx : Nat) : Except GoErr Timestamp := do
  let l ← getLine lines idx
  parseTimestamp (ByteToString (joinWith 'T' (splitOnChar ',' l)))

/-- Data-file content type line (Go 697–699). -/
def readDatType (lines : List (List Char)) (idx : Nat) : Except GoErr (List Char) := do
  let l ← getLine lines idx
  return ByteToString ((splitOnChar ',' l).getD 0 [])

/-- Time multiplication factor line (Go 701–711): a blank first field defaults
to 1. -/
def readTimeFactor (lines : List (List Char)) (idx : Nat) : Except GoErr ℚ := do
  let l ← getLine lines idx
  if (splitOnChar ',' l).getD 0 [] ≠ [] then
    parseFloatQ (ByteToString ((splitOnChar ',' l).getD 0 []))
  else
    .ok 1

/-- Optional trailing time-code / local-code line (Go 713–721).  The source
guard is `len(lines) >= int(optionalLineNum)` and then indexes
`lines[optionalLineNum]`, so equality slips past the guard into a panic. -/
def readOptional (lines : List (List Char)) (idx : Nat) :
    Except GoErr (List Char × List Char) :=
  if lines.length ≥ idx then do
    let l ← getLine lines idx
    if (splitOnChar ',' l).length = 2 then
      return (ByteToString ((splitOnChar ',' l).getD 0 []),
              ByteToString ((splitOnChar ',' l).getD 1 []))
    else
      return ([], [])
  else
    .ok ([], [])

/-- Everything after the channel loops (Go 641–723); the offsets
`c + SampleRateNum + A + D` are computed in `uint16` arithmetic, reading the
totals back from the channel tables as the source does. -/
def readTail (lines : List (List Char)) (st : HeaderState) : Except GoErr CFG := do
  let freq ← readFreq lines st.chA.ChannelTotal st.chD.ChannelTotal
  let rateNum ← readRateNum lines st.chA.ChannelTotal st.chD.ChannelTotal
  let rates ← readRatesLoop lines st.chA.ChannelTotal st.chD.ChannelTotal rateNum 0 []
  let startT ← readTimeLine lines (m16 (4 + rateNum + st.chA.ChannelTotal + st.chD.ChannelTotal))
  let trigT ← readTimeLine lines (m16 (5 + rateNum + st.chA.ChannelTotal + st.chD.ChannelTotal))
  let dft ← readDatType lines (m16 (6 + rateNum + st.chA.ChannelTotal + st.chD.ChannelTotal))
  let tf ← readTimeFactor lines (m16 (7 + rateNum + st.chA.ChannelTotal + st.chD.ChannelTotal))
  let codes ← readOptional lines (m16 (8 + rateNum + st.chA.ChannelTotal + st.chD.ChannelTotal))
  return { StationName := st.station, RecordDeviceId := st.device,
           RevisionYear := st.revYear, ChannelNumber := st.chanTotal,
           AnalogDetail := st.chA, DigitDetail := st.chD,
           LineFrequency := freq, SampleRateNum := rateNum, SampleDetail := rates,
           StartTime := startT, TriggerTime := trigT, DataFileType := dft,
           TimeFactor := tf, TimeCode := codes.1, LocalCode := codes.2,
           DataFileContent := ⟨[], 0⟩ }

/-- Go `ReadCFG` on an already line-split document (called on a fresh `NewCFG`
receiver, so `DataFileContent` is empty afterwards). -/
def readCFGlines (lines : List (List Char)) : Except GoErr CFG := do
  let st ← readUpToChannels lines
  readTail lines st

/-- Go `ReadCFG`: split the document on newlines and decode. -/
def ReadCFG (content : List Char) : Except GoErr CFG :=
  readCFGlines (splitOnChar '\n' content)

/-- Go `ReadDAT`: store the binary sample buffer — an `ioutil.ReadAll` result,
carrying its capacity — in the configuration. -/
def ReadDAT (cfg : CFG) (content : ByteSlice) : CFG :=
  { cfg with DataFileContent := content }

/-- Signed 16-bit little-endian value from two bytes. -/
def int16LE (lo hi : Nat) : Int :=
  let u := lo % 256 + 256 * (hi % 256)
  if u < 32768 then (u : Int) else (u : Int) - 65536

/-- Go `binary.Read(..., binary.LittleEndian, &value)` into an `[]int16`:
consecutive byte pairs become signed little-endian 16-bit values. -/
def readInt16s : List Nat → List Int
  | lo :: hi :: rest => int16LE lo hi :: readInt16s rest
  | _ => []

/-- `n` consecutive bytes of the backing array starting at `start`: the stored
bytes within the length, the zero bytes of the spare capacity beyond it. -/
def sliceBytes (data : List Nat) (start n : Nat) : List Nat :=
  (List.range n).map fun j => data.getD (start + j) 0

/-- Go slice expression `b[start:stop]`.  The bounds are checked against the
CAPACITY (out of range is the untyped slice panic); in range, the resulting
slice exposes the backing array, whose bytes past the length are zero for an
`ioutil.ReadAll` buffer. -/
def goSlice (b : ByteSlice) (start stop : Nat) : Except GoErr (List Nat) :=
  if start ≤ stop ∧ stop ≤ b.cap then
    .ok (sliceBytes b.data start (stop - start))
  else
    .error .panicSliceOutOfRange

/-- Go slice indexing `l[i]` inside the extractor: panic when out of range. -/
def getIdx {α : Type} (l : List α) (i : Nat) : Except GoErr α :=
  match l[i]? with
  | some x => .ok x
  | none => .error .panicIndexOutOfRange

/-- Go line 767: `int(math.Ceil(float64(int(D)) / float64(16)))`, exact for all
`uint16` values. -/
def ceilDiv16 (d : Nat) : Nat :=
  Nat.ceil ((d : ℚ) / 16)

/-- Go line 767: number of bytes per sample record,
`NB := 8 + int(A)<<1 + int(math.Ceil(float64(int(D))/16))<<1`. -/
def NBof (aTot dTot : Nat) : Nat :=
  8 + (aTot <<< 1) + (ceilDiv16 dTot <<< 1)

/-- The sample loop of `GetAnalogChannelData` (Go 783–796): `rem` iterations
remaining, current record index `i`; each record is sliced, its 8 header bytes
skipped, the 16-bit values decoded, and the requested channel calibrated. -/
def extractLoop (b : ByteSlice) (NB num : Nat) (aL bL : List ℚ) :
    Nat → Nat → Except GoErr (List ℚ)
  | 0, _ => .ok []
  | rem + 1, i => do
    let s ← goSlice b (i * NB) (i * NB + NB)
    let raw ← getIdx (readInt16s (s.drop 8)) (num - 1)
    let fa ← getIdx aL (num - 1)
    let fb ← getIdx bL (num - 1)
    let rest ← extractLoop b NB num aL bL rem (i + 1)
    return ((raw : ℚ) * fa + fb) :: rest

/-- Go `GetAnalogChannelData` (739–799).  The `nil`-receiver and `nil`-pointer
checks of the source cannot arise in the model (a decoded configuration always
carries its tables); the remaining checks are modelled in source order. -/
def GetAnalogChannelData (cfg : CFG) (num : Nat) : Except GoErr (List ℚ) :=
  if cfg.DataFileContent.data = [] then .error .errNoData
  else if cfg.AnalogDetail.ChannelTotal < num then .error .errChannelTooBig
  else if num < 1 then .error .errChannelLessOne
  else if cfg.SampleDetail = [] then .error .errNoSampleDetail
  else
    extractLoop cfg.DataFileContent
      (NBof cfg.AnalogDetail.ChannelTotal cfg.DigitDetail.ChannelTotal) num
      cfg.AnalogDetail.FactorsA cfg.AnalogDetail.FactorsB
      (cfg.SampleDetail.getD 0 ⟨0, 0⟩).Number.toNat 0

/-- Stated from the spec, for comparison with `GetAnalogChannelData`: the i-th
output value is the signed 16-bit little-endian raw sample for channel `num`
in record `i` (bytes `i*NB+8+2*(num-1)` and the next one) scaled by factor A
and offset by factor B of that channel. -/
def specAnalogSeries (data : List Nat) (NB : Nat) (aL bL : List ℚ)
    (num N : Nat) : List ℚ :=
  (List.range N).map fun i =>
    ((int16LE (data.getD (i * NB + 8 + 2 * (num - 1)) 0)
        (data.getD (i * NB + 8 + 2 * (num - 1) + 1) 0) : ℚ))
      * aL.getD (num - 1) 0 + bL.getD (num - 1) 0

/-! ### Basic inversion lemmas -/

lemma exceptBindOk {α β : Type} {x : Except GoErr α} {f : α → Except GoErr β} {b : β} :
    (x >>= f) = .ok b ↔ ∃ a, x = .ok a ∧ f a = .ok b := by
  cases x <;> simp [Bind.bind, Except.bind]

lemma getLine_ok {lines : List (List Char)} {i : Nat} {l : List Char} :
    getLine lines i = .ok l ↔ lines[i]? = some l := by
  unfold getLine
  cases h : lines[i]? <;> simp

lemma getLine_ok_lt {lines : List (List Char)} {i : Nat} {l : List Char}
    (h : getLine lines i = .ok l) : i < lines.length := by
  rw [getLine_ok] at h
  exact (List.getElem?_eq_some.mp h).1

/-- `uint16` arithmetic successor step. -/
lemma m16_succ (n : Nat) : m16 (n + 1) = (m16 n + 1) % 65536 := by
  unfold m16
  omega

/-- Two `uint16` line offsets that differ by a small positive amount are
distinct. -/
lemma m16_ne_of_small_gap {a b : Nat} (hlt : a < b) (hgap : b - a < 65536) :
    m16 a ≠ m16 b := by
  unfold m16
  intro h
  omega

/-! ### The record size NB (claim C2 support) -/

lemma ceilDiv16_eq (d : Nat) : ceilDiv16 d = (d + 15) / 16 := by
  unfold ceilDiv16
  have h16 : (0 : ℚ) < 16 := by norm_num
  refine Nat.le_antisymm ?_ ?_
  · refine Nat.ceil_le.mpr ?_
    rw [div_le_iff₀ h16]
    have h3 := Nat.div_add_mod (d + 15) 16
    have h4 : (d + 15) % 16 < 16 := Nat.mod_lt _ (by norm_num)
    have h : d ≤ (d + 15) / 16 * 16 := by omega
    calc ((d : Nat) : ℚ) ≤ (((d + 15) / 16 * 16 : Nat) : ℚ) := by exact_mod_cast h
    _ = (((d + 15) / 16 : Nat) : ℚ) * 16 := by push_cast; ring
  · have h := Nat.le_ceil ((d : ℚ) / 16)
    rw [div_le_iff₀ h16] at h
    have h2 : d ≤ Nat.ceil ((d : ℚ) / 16) * 16 := by exact_mod_cast h
    have h3 := Nat.div_add_mod (d + 15) 16
    have h4 : (d + 15) % 16 < 16 := Nat.mod_lt _ (by norm_num)
    omega

lemma NBof_eq (aTot dTot : Nat) : NBof aTot dTot = 8 + 2 * aTot + 2 * ((dTot + 15) / 16) := by
  unfold NBof
  rw [ceilDiv16_eq]
  simp [Nat.shiftLeft_eq]
  ring

/-! ### Row-level inversion lemmas -/

lemma analogOpt1_proj (t : List (List Char)) (a : ChannelA) :
    (analogOpt1 t a).ChannelTotal = a.ChannelTotal ∧
    (analogOpt1 t a).FactorsA = a.FactorsA ∧
    (analogOpt1 t a).FactorsB = a.FactorsB ∧
    (analogOpt1 t a).ChannelNames = a.ChannelNames ∧
    (analogOpt1 t a).Secondary = a.Secondary ∧
    (analogOpt1 t a).Primary = (if 10 < t.length then
        match parseFloatQ (ByteToString (t.getD 10 [])) with
        | .ok p => a.Primary ++ [p]
        | .error _ => a.Primary
      else a.Primary) := by
  unfold analogOpt1
  split <;> (try split) <;> simp

lemma analogOpt2_proj (t : List (List Char)) (a : ChannelA) :
    (analogOpt2 t a).ChannelTotal = a.ChannelTotal ∧
    (analogOpt2 t a).FactorsA = a.FactorsA ∧
    (analogOpt2 t a).FactorsB = a.FactorsB ∧
    (analogOpt2 t a).ChannelNames = a.ChannelNames ∧
    (analogOpt2 t a).Primary = a.Primary ∧
    (analogOpt2 t a).Secondary = (if 11 < t.length then
        match parseFloatQ (ByteToString (t.getD 11 [])) with
        | .ok p => a.Secondary ++ [p]
        | .error _ => a.Secondary
      else a.Secondary) := by
  unfold analogOpt2
  split <;> (try split) <;> simp

lemma analogOpt3_proj (t : List (List Char)) (a : ChannelA) :
    (analogOpt3 t a).ChannelTotal = a.ChannelTotal ∧
    (analogOpt3 t a).FactorsA = a.FactorsA ∧
    (analogOpt3 t a).FactorsB = a.FactorsB ∧
    (analogOpt3 t a).ChannelNames = a.ChannelNames ∧
    (analogOpt3 t a).Primary = a.Primary ∧
    (analogOpt3 t a).Secondary = a.Secondary := by
  unfold analogOpt3
  split <;> simp

lemma processAnalogRowT_ok_inv {i : Nat} {t : List (List Char)} {acc acc' : ChannelA}
    (h : processAnalogRowT i t acc = .ok acc') :
    10 ≤ t.length ∧
    acc'.ChannelTotal = acc.ChannelTotal ∧
    (∃ fa, parseFloatQ (ByteToString (t.getD 5 [])) = .ok fa ∧
      acc'.FactorsA = acc.FactorsA ++ [fa]) ∧
    (∃ fb, parseFloatQ (ByteToString (t.getD 6 [])) = .ok fb ∧
      acc'.FactorsB = acc.FactorsB ++ [fb]) ∧
    acc'.ChannelNames = acc.ChannelNames ++ [goFormatName (t.getD 1 [])] ∧
    acc'.Primary = (if 10 < t.length then
        match parseFloatQ (ByteToString (t.getD 10 [])) with
        | .ok p => acc.Primary ++ [p]
        | .error _ => acc.Primary
      else acc.Primary) ∧
    acc'.Secondary = (if 11 < t.length then
        match parseFloatQ (ByteToString (t.getD 11 [])) with
        | .ok p => acc.Secondary ++ [p]
        | .error _ => acc.Secondary
      else acc.Secondary) := by
  unfold processAnalogRowT at h
  split at h
  · exact absurd h (by simp)
  · rename_i hlen
    rcases exceptBindOk.mp h with ⟨num, hnum, h⟩
    rcases exceptBindOk.mp h with ⟨fa, hfa, h⟩
    rcases exceptBindOk.mp h with ⟨fb, hfb, h⟩
    rcases exceptBindOk.mp h with ⟨tf, htf, h⟩
    rcases exceptBindOk.mp h with ⟨vmin, hvmin, h⟩
    rcases exceptBindOk.mp h with ⟨vmax, hvmax, h⟩
    simp only [pure, Except.pure, Except.ok.injEq] at h
    subst h
    refine ⟨by omega, ?_, ⟨fa, hfa, ?_⟩, ⟨fb, hfb, ?_⟩, ?_, ?_, ?_⟩ <;>
      simp [analogOpt1_proj, analogOpt2_proj, analogOpt3_proj]

lemma processDigitRowT_ok_inv {i : Nat} {t : List (List Char)} {acc acc' : ChannelD}
    (h : processDigitRowT i t acc = .ok acc') :
    3 ≤ t.length ∧
    acc'.ChannelTotal = acc.ChannelTotal ∧
    acc'.ChannelNames = acc.ChannelNames ++ [goFormatName (t.getD 1 [])] := by
  unfold processDigitRowT at h
  split at h
  · exact absurd h (by simp)
  · rename_i hlen
    rcases exceptBindOk.mp h with ⟨num, hnum, h⟩
    rcases exceptBindOk.mp h with ⟨st, hst, h⟩
    simp only [pure, Except.pure, Except.ok.injEq] at h
    subst h
    exact ⟨by omega, rfl, rfl⟩

/-- Go 630–638: an unparsable fifth digital field aborts the row (and hence the
decode) with an error, in contrast to the silently skipped analog ratios. -/
lemma processDigitRowT_err_field4 {i : Nat} {t : List (List Char)} {acc : ChannelD}
    {er : GoErr} (hlen : 4 < t.length)
    (hbad : parseUintBits 8 (ByteToString (t.getD 4 [])) = .error er) :
    ∃ e, processDigitRowT i t acc = .error e := by
  have hds : digitInitState t = .error er := by
    unfold digitInitState
    rw [if_pos hlen, hbad]
  unfold processDigitRowT
  split
  · exact ⟨_, rfl⟩
  · cases hp : parseGoInt (ByteToString (t.getD 0 [])) with
    | error e => exact ⟨e, by simp [Bind.bind, Except.bind, hp]⟩
    | ok v =>
      refine ⟨er, ?_⟩
      simp [Bind.bind, Except.bind, hp, hds]

/-! ### Loop-level lemmas -/

lemma getLine_set_ne {lines : List (List Char)} {k m : Nat} {v : List Char}
    (h : k ≠ m) : getLine (lines.set k v) m = getLine lines m := by
  unfold getLine
  rw [List.getElem?_set_ne h]

lemma bindCongr {α β : Type} {x x' : Except GoErr α} {f f' : α → Except GoErr β}
    (hx : x = x') (hf : ∀ a, f a = f' a) : (x >>= f) = (x' >>= f') := by
  subst hx
  cases x <;> simp [Bind.bind, Except.bind, hf]

lemma readAnalogLoop_ok_inv {lines : List (List Char)} :
    ∀ rem i (acc chA : ChannelA), readAnalogLoop lines rem i acc = .ok chA →
      chA.ChannelTotal = acc.ChannelTotal ∧
      chA.FactorsA.length = acc.FactorsA.length + rem ∧
      chA.FactorsB.length = acc.FactorsB.length + rem ∧
      (∀ j, i ≤ j → j < i + rem →
        ∃ line, lines[2 + j]? = some line ∧ 10 ≤ (splitOnChar ',' line).length) := by
  intro rem
  induction rem with
  | zero =>
    intro i acc chA h
    simp only [readAnalogLoop, Except.ok.injEq] at h
    subst h
    exact ⟨rfl, rfl, rfl, fun j h1 h2 => absurd h2 (by omega)⟩
  | succ rem ih =>
    intro i acc chA h
    unfold readAnalogLoop at h
    rcases exceptBindOk.mp h with ⟨line, hline, h⟩
    rcases exceptBindOk.mp h with ⟨acc'', hrow, h⟩
    obtain ⟨htot, hfa, hfb, hrange⟩ := ih (i + 1) acc'' chA h
    unfold processAnalogRow at hrow
    obtain ⟨hlen, htot', ⟨fa, _, hfa'⟩, ⟨fb, _, hfb'⟩, _, _, _⟩ :=
      processAnalogRowT_ok_inv hrow
    refine ⟨by rw [htot, htot'], ?_, ?_, ?_⟩
    · rw [hfa, hfa']
      simp
      omega
    · rw [hfb, hfb']
      simp
      omega
    · intro j h1 h2
      rcases Nat.eq_or_lt_of_le h1 with heq | hlt
      · subst heq
        exact ⟨line, getLine_ok.mp hline, hlen⟩
      · exact hrange j hlt (by omega)

lemma readAnalogLoop_frame {lines : List (List Char)} {k : Nat} {v : List Char} :
    ∀ rem i (acc : ChannelA), (k < 2 + i ∨ 2 + i + rem ≤ k) →
      readAnalogLoop (lines.set k v) rem i acc = readAnalogLoop lines rem i acc := by
  intro rem
  induction rem with
  | zero => intro i acc _; rfl
  | succ rem ih =>
    intro i acc hk
    unfold readAnalogLoop
    refine bindCongr (getLine_set_ne (by omega)) fun line => ?_
    refine bindCongr rfl fun acc'' => ?_
    exact ih (i + 1) acc'' (by omega)

lemma readDigitLoop_ok_inv {lines : List (List Char)} {aTot : Nat} :
    ∀ rem i (acc chD : ChannelD), readDigitLoop lines aTot rem i acc = .ok chD →
      chD.ChannelTotal = acc.ChannelTotal ∧
      (∀ j, i ≤ j → j < i + rem →
        ∃ line, lines[2 + aTot + j]? = some line ∧ 3 ≤ (splitOnChar ',' line).length) := by
  intro rem
  induction rem with
  | zero =>
    intro i acc chD h
    simp only [readDigitLoop, Except.ok.injEq] at h
    subst h
    exact ⟨rfl, fun j h1 h2 => absurd h2 (by omega)⟩
  | succ rem ih =>
    intro i acc chD h
    unfold readDigitLoop at h
    rcases exceptBindOk.mp h with ⟨line, hline, h⟩
    rcases exceptBindOk.mp h with ⟨acc'', hrow, h⟩
    obtain ⟨htot, hrange⟩ := ih (i + 1) acc'' chD h
    unfold processDigitRow at hrow
    obtain ⟨hlen, htot', _⟩ := processDigitRowT_ok_inv hrow
    refine ⟨by rw [htot, htot'], ?_⟩
    intro j h1 h2
    rcases Nat.eq_or_lt_of_le h1 with heq | hlt
    · subst heq
      exact ⟨line, getLine_ok.mp hline, hlen⟩
    · exact hrange j hlt (by omega)

lemma readDigitLoop_frame {lines : List (List Char)} {aTot k : Nat} {v : List Char} :
    ∀ rem i (acc : ChannelD), (k < 2 + aTot + i ∨ 2 + aTot + i + rem ≤ k) →
      readDigitLoop (lines.set k v) aTot rem i acc = readDigitLoop lines aTot rem i acc := by
  intro rem
  induction rem with
  | zero => intro i acc _; rfl
  | succ rem ih =>
    intro i acc hk
    unfold readDigitLoop
    refine bindCongr (getLine_set_ne (by omega)) fun line => ?_
    refine bindCongr rfl fun acc'' => ?_
    exact ih (i + 1) acc'' (by omega)

lemma readRatesLoop_ok_len {lines : List (List Char)} {aTot dTot : Nat} :
    ∀ n i (acc rates : List SampleRate),
      readRatesLoop lines aTot dTot n i acc = .ok rates →
      rates.length = acc.length + n := by
  intro n
  induction n with
  | zero =>
    intro i acc rates h
    simp only [readRatesLoop, Except.ok.injEq] at h
    subst h
    rfl
  | succ n ih =>
    intro i acc rates h
    unfold readRatesLoop at h
    rcases exceptBindOk.mp h with ⟨l, hl, h⟩
    rcases exceptBindOk.mp h with ⟨r, hr, h⟩
    rcases exceptBindOk.mp h with ⟨f1, hf1, h⟩
    rcases exceptBindOk.mp h with ⟨nn, hnn, h⟩
    have := ih (i + 1) (acc ++ [⟨r, ratTrunc nn⟩]) rates h
    simp at this
    omega

lemma readRatesLoop_frame {lines : List (List Char)} {aTot dTot k : Nat} {v : List Char} :
    ∀ n i (acc : List SampleRate), (k < 4 + i + aTot + dTot ∨ 4 + i + n + aTot + dTot ≤ k) →
      readRatesLoop (lines.set k v) aTot dTot n i acc =
        readRatesLoop lines aTot dTot n i acc := by
  intro n
  induction n with
  | zero => intro i acc _; rfl
  | succ n ih =>
    intro i acc hk
    unfold readRatesLoop
    refine bindCongr (getLine_set_ne (by omega)) fun l => ?_
    refine bindCongr rfl fun r => ?_
    refine bindCongr rfl fun f1 => ?_
    refine bindCongr rfl fun nn => ?_
    exact ih (i + 1) (acc ++ [⟨r, ratTrunc nn⟩]) (by omega)

/-! ### Step-level inversion and frame lemmas for the tail of the decoder -/

lemma readRateNum_ok_inv {lines : List (List Char)} {aTot dTot rateNum : Nat}
    (h : readRateNum lines aTot dTot = .ok rateNum) :
    1 ≤ rateNum ∧
    ∃ l n, lines[m16 (3 + aTot + dTot)]? = some l ∧
      parseUintBits 16 (ByteToString ((splitOnChar ',' l).getD 0 [])) = .ok n ∧
      rateNum = (if n = 0 then 1 else n) := by
  unfold readRateNum at h
  rcases exceptBindOk.mp h with ⟨l, hl, h⟩
  rcases exceptBindOk.mp h with ⟨n, hn, h⟩
  simp only [pure, Except.pure, Except.ok.injEq] at h
  subst h
  refine ⟨by split <;> omega, l, n, getLine_ok.mp hl, hn, rfl⟩

lemma readTimeLine_ok_inv {lines : List (List Char)} {idx : Nat} {ts : Timestamp}
    (h : readTimeLine lines idx = .ok ts) :
    ∃ l, lines[idx]? = some l ∧
      parseTimestamp (ByteToString (joinWith 'T' (splitOnChar ',' l))) = .ok ts := by
  unfold readTimeLine at h
  rcases exceptBindOk.mp h with ⟨l, hl, h⟩
  exact ⟨l, getLine_ok.mp hl, h⟩

lemma readTimeFactor_ok_lt {lines : List (List Char)} {idx : Nat} {tf : ℚ}
    (h : readTimeFactor lines idx = .ok tf) : idx < lines.length := by
  unfold readTimeFactor at h
  rcases exceptBindOk.mp h with ⟨l, hl, _⟩
  exact getLine_ok_lt hl

lemma readOptional_ok_cases {lines : List (List Char)} {idx : Nat}
    {codes : List Char × List Char} (h : readOptional lines idx = .ok codes) :
    lines.length < idx ∨ idx < lines.length := by
  unfold readOptional at h
  split at h
  · rcases exceptBindOk.mp h with ⟨l, hl, _⟩
    exact Or.inr (getLine_ok_lt hl)
  · rename_i hge
    exact Or.inl (by omega)

lemma readFreq_frame {lines : List (List Char)} {k : Nat} {v : List Char}
    {aTot dTot : Nat} (h : k ≠ m16 (2 + aTot + dTot)) :
    readFreq (lines.set k v) aTot dTot = readFreq lines aTot dTot := by
  unfold readFreq
  exact bindCongr (getLine_set_ne h) fun l => rfl

lemma readTimeLine_frame {lines : List (List Char)} {k : Nat} {v : List Char}
    {idx : Nat} (h : k ≠ idx) :
    readTimeLine (lines.set k v) idx = readTimeLine lines idx := by
  unfold readTimeLine
  exact bindCongr (getLine_set_ne h) fun l => rfl

lemma readDatType_frame {lines : List (List Char)} {k : Nat} {v : List Char}
    {idx : Nat} (h : k ≠ idx) :
    readDatType (lines.set k v) idx = readDatType lines idx := by
  unfold readDatType
  exact bindCongr (getLine_set_ne h) fun l => rfl

lemma readTimeFactor_frame {lines : List (List Char)} {k : Nat} {v : List Char}
    {idx : Nat} (h : k ≠ idx) :
    readTimeFactor (lines.set k v) idx = readTimeFactor lines idx := by
  unfold readTimeFactor
  exact bindCongr (getLine_set_ne h) fun l => rfl

lemma readOptional_frame {lines : List (List Char)} {k : Nat} {v : List Char}
    {idx : Nat} (h : k ≠ idx) :
    readOptional (lines.set k v) idx = readOptional lines idx := by
  unfold readOptional
  rw [List.length_set]
  split
  · exact bindCongr (getLine_set_ne h) fun l => rfl
  · rfl

/-! ### Pipeline inversion -/

lemma readUpToChannels_ok_inv {lines : List (List Char)} {st : HeaderState}
    (h : readUpToChannels lines = .ok st) :
    ∃ h0 h1 chA chD,
      readLine0 lines = .ok h0 ∧
      readLine1 lines = .ok h1 ∧
      readAnalogLoop lines h1.2.1 0 { emptyChannelA with ChannelTotal := h1.2.1 } = .ok chA ∧
      readDigitLoop lines h1.2.1 h1.2.2 0 { emptyChannelD with ChannelTotal := h1.2.2 } = .ok chD ∧
      st = ⟨h0.1, h0.2.1, h0.2.2, h1.1, chA, chD⟩ := by
  unfold readUpToChannels at h
  rcases exceptBindOk.mp h with ⟨h0, hh0, h⟩
  rcases exceptBindOk.mp h with ⟨h1, hh1, h⟩
  rcases exceptBindOk.mp h with ⟨chA, hchA, h⟩
  rcases exceptBindOk.mp h with ⟨chD, hchD, h⟩
  simp only [pure, Except.pure, Except.ok.injEq] at h
  exact ⟨h0, h1, chA, chD, hh0, hh1, hchA, hchD, h.symm⟩

lemma readTail_ok_inv {lines : List (List Char)} {st : HeaderState} {cfg : CFG}
    (h : readTail lines st = .ok cfg) :
    ∃ freq rateNum rates startT trigT dft tf codes,
      readFreq lines st.chA.ChannelTotal st.chD.ChannelTotal = .ok freq ∧
      readRateNum lines st.chA.ChannelTotal st.chD.ChannelTotal = .ok rateNum ∧
      readRatesLoop lines st.chA.ChannelTotal st.chD.ChannelTotal rateNum 0 [] = .ok rates ∧
      readTimeLine lines (m16 (4 + rateNum + st.chA.ChannelTotal + st.chD.ChannelTotal)) = .ok startT ∧
      readTimeLine lines (m16 (5 + rateNum + st.chA.ChannelTotal + st.chD.ChannelTotal)) = .ok trigT ∧
      readDatType lines (m16 (6 + rateNum + st.chA.ChannelTotal + st.chD.ChannelTotal)) = .ok dft ∧
      readTimeFactor lines (m16 (7 + rateNum + st.chA.ChannelTotal + st.chD.ChannelTotal)) = .ok tf ∧
      readOptional lines (m16 (8 + rateNum + st.chA.ChannelTotal + st.chD.ChannelTotal)) = .ok codes ∧
      cfg = { StationName := st.station, RecordDeviceId := st.device,
              RevisionYear := st.revYear, ChannelNumber := st.chanTotal,
              AnalogDetail := st.chA, DigitDetail := st.chD,
              LineFrequency := freq, SampleRateNum := rateNum, SampleDetail := rates,
              StartTime := startT, TriggerTime := trigT, DataFileType := dft,
              TimeFactor := tf, TimeCode := codes.1, LocalCode := codes.2,
              DataFileContent := ⟨[], 0⟩ } := by
  unfold readTail at h
  rcases exceptBindOk.mp h with ⟨freq, h1, h⟩
  rcases exceptBindOk.mp h with ⟨rateNum, h2, h⟩
  rcases exceptBindOk.mp h with ⟨rates, h3, h⟩
  rcases exceptBindOk.mp h with ⟨startT, h4, h⟩
  rcases exceptBindOk.mp h with ⟨trigT, h5, h⟩
  rcases exceptBindOk.mp h with ⟨dft, h6, h⟩
  rcases exceptBindOk.mp h with ⟨tf, h7, h⟩
  rcases exceptBindOk.mp h with ⟨codes, h8, h⟩
  simp only [pure, Except.pure, Except.ok.injEq] at h
  exact ⟨freq, rateNum, rates, startT, trigT, dft, tf, codes,
    h1, h2, h3, h4, h5, h6, h7, h8, h.symm⟩

lemma readCFGlines_ok_inv {lines : List (List Char)} {cfg : CFG}
    (h : readCFGlines lines = .ok cfg) :
    ∃ st, readUpToChannels lines = .ok st ∧ readTail lines st = .ok cfg := by
  unfold readCFGlines at h
  exact exceptBindOk.mp h

/-- Structural facts guaranteed by any successful decode: the factor tables are
index-aligned with the analog channel total, the sample-rate table length is
the (coerced) declared count, which is at least 1, and the binary buffer is
untouched. -/
lemma readCFG_ok_facts {lines : List (List Char)} {cfg : CFG}
    (h : readCFGlines lines = .ok cfg) :
    cfg.AnalogDetail.FactorsA.length = cfg.AnalogDetail.ChannelTotal ∧
    cfg.AnalogDetail.FactorsB.length = cfg.AnalogDetail.ChannelTotal ∧
    cfg.SampleDetail.length = cfg.SampleRateNum ∧
    1 ≤ cfg.SampleRateNum ∧
    cfg.DataFileContent = ⟨[], 0⟩ := by
  rcases readCFGlines_ok_inv h with ⟨st, hst, htail⟩
  rcases readUpToChannels_ok_inv hst with ⟨h0, h1, chA, chD, hh0, hh1, hchA, hchD, hsteq⟩
  subst hsteq
  obtain ⟨htotA, hlenA, hlenB, _⟩ := readAnalogLoop_ok_inv _ _ _ _ hchA
  rcases readTail_ok_inv htail with
    ⟨freq, rateNum, rates, sT, tT, dft, tf, codes, _, h2, h3, _, _, _, _, _, hcfg⟩
  subst hcfg
  have hrn := (readRateNum_ok_inv h2).1
  have hrl := readRatesLoop_ok_len _ _ _ _ h3
  simp only [List.length_nil] at hrl
  simp only [emptyChannelA, List.length_nil] at htotA hlenA hlenB
  exact ⟨by simp [htotA, hlenA], by simp [htotA, hlenB], by simp [hrl], by simp [hrn], rfl⟩

/-! ### Extractor lemmas -/

lemma readInt16s_length : ∀ l : List Nat, (readInt16s l).length = l.length / 2
  | [] => rfl
  | [_] => by simp [readInt16s]
  | lo :: hi :: rest => by
    have ih := readInt16s_length rest
    simp [readInt16s, ih]
    omega

lemma readInt16s_get? : ∀ (l : List Nat) (k : Nat), 2 * k + 1 < l.length →
    (readInt16s l)[k]? = some (int16LE (l.getD (2 * k) 0) (l.getD (2 * k + 1) 0))
  | [], k, h => by simp at h
  | [lo], k, h => by simp at h
  | lo :: hi :: rest, 0, h => by simp [readInt16s]
  | lo :: hi :: rest, k + 1, h => by
    have h' : 2 * k + 1 < rest.length := by
      simp at h
      omega
    have ih := readInt16s_get? rest k h'
    have e1 : 2 * (k + 1) = 2 * k + 1 + 1 := by ring
    have e2 : 2 * (k + 1) + 1 = 2 * k + 1 + 1 + 1 := by ring
    simp only [readInt16s, e1, e2, List.getD_cons_succ, List.getElem?_cons_succ]
    exact ih

lemma goSlice_ok {b : ByteSlice} {start NB : Nat} (h : start + NB ≤ b.cap) :
    goSlice b start (start + NB) = .ok (sliceBytes b.data start NB) := by
  unfold goSlice
  rw [if_pos ⟨by omega, h⟩, Nat.add_sub_cancel_left]

lemma goSlice_err {b : ByteSlice} {start stop : Nat} (h : b.cap < stop) :
    goSlice b start stop = .error .panicSliceOutOfRange := by
  unfold goSlice
  rw [if_neg]
  rintro ⟨-, h2⟩
  omega

lemma sliceBytes_drop8_getD {data : List Nat} {start NB j : Nat} (hj : 8 + j < NB) :
    ((sliceBytes data start NB).drop 8).getD j 0 = data.getD (start + 8 + j) 0 := by
  unfold sliceBytes
  rw [List.getD_eq_getElem?_getD, List.getElem?_drop, List.getElem?_map,
    List.getElem?_range (by omega : 8 + j < NB)]
  simp only [Option.map_some', Option.getD_some]
  have e : start + (8 + j) = start + 8 + j := by omega
  rw [e]

lemma sliceBytes_drop8_length {data : List Nat} {start NB : Nat} :
    ((sliceBytes data start NB).drop 8).length = NB - 8 := by
  simp [sliceBytes]

lemma getIdx_ok_getD {α : Type} {l : List α} {i : Nat} (h : i < l.length) (d : α) :
    getIdx l i = .ok (l.getD i d) := by
  unfold getIdx
  rw [List.getElem?_eq_getElem h]
  simp [List.getD_eq_getElem?_getD, List.getElem?_eq_getElem h]

/-- Calibrated value of record `j` for channel `num`, read straight off the
buffer (the i-th raw sample bytes are at offset `j*NB + 8 + 2*(num-1)`). -/
def calAt (data : List Nat) (NB : Nat) (aL bL : List ℚ) (num j : Nat) : ℚ :=
  ((int16LE (data.getD (j * NB + 8 + 2 * (num - 1)) 0)
      (data.getD (j * NB + 8 + 2 * (num - 1) + 1) 0) : ℚ))
    * aL.getD (num - 1) 0 + bL.getD (num - 1) 0

lemma extractLoop_step {b : ByteSlice} {num A c NB : Nat} {aL bL : List ℚ}
    (hNB : NB = 8 + 2 * A + 2 * c) (hnum1 : 1 ≤ num) (hnumA : num ≤ A)
    (haL : num - 1 < aL.length) (hbL : num - 1 < bL.length)
    {i : Nat} (hle : i * NB + NB ≤ b.cap) (rem : Nat) :
    extractLoop b NB num aL bL (rem + 1) i =
      Except.map (fun rest => calAt b.data NB aL bL num i :: rest)
        (extractLoop b NB num aL bL rem (i + 1)) := by
  have hs := @goSlice_ok b (i * NB) NB hle
  have hdroplen : ((sliceBytes b.data (i * NB) NB).drop 8).length = NB - 8 :=
    sliceBytes_drop8_length
  have hbound : 2 * (num - 1) + 1 < ((sliceBytes b.data (i * NB) NB).drop 8).length := by
    rw [hdroplen]
    omega
  have hval := readInt16s_get? _ (num - 1) hbound
  rw [sliceBytes_drop8_getD (by omega), sliceBytes_drop8_getD (by omega)] at hval
  have e1 : i * NB + 8 + (2 * (num - 1)) = i * NB + 8 + 2 * (num - 1) := by omega
  have e2 : i * NB + 8 + (2 * (num - 1) + 1) = i * NB + 8 + 2 * (num - 1) + 1 := by omega
  rw [e1, e2] at hval
  have hgi : getIdx (readInt16s ((sliceBytes b.data (i * NB) NB).drop 8)) (num - 1) =
      .ok (int16LE (b.data.getD (i * NB + 8 + 2 * (num - 1)) 0)
            (b.data.getD (i * NB + 8 + 2 * (num - 1) + 1) 0)) := by
    unfold getIdx
    rw [hval]
  have hga := getIdx_ok_getD haL (0 : ℚ)
  have hgb := getIdx_ok_getD hbL (0 : ℚ)
  conv_lhs => rw [extractLoop]
  rw [hs]
  simp only [Bind.bind, Except.bind, hgi, hga, hgb]
  cases hrec : extractLoop b NB num aL bL rem (i + 1) <;>
    simp [Except.map, pure, Except.pure, calAt]

lemma extractLoop_ok {b : ByteSlice} {num A c NB : Nat} {aL bL : List ℚ}
    (hNB : NB = 8 + 2 * A + 2 * c) (hnum1 : 1 ≤ num) (hnumA : num ≤ A)
    (haL : num - 1 < aL.length) (hbL : num - 1 < bL.length) :
    ∀ rem i, (i + rem) * NB ≤ b.cap →
      extractLoop b NB num aL bL rem i =
        .ok ((List.range' i rem).map (calAt b.data NB aL bL num)) := by
  intro rem
  induction rem with
  | zero =>
    intro i h
    simp [extractLoop]
  | succ rem ih =>
    intro i h
    have hle : i * NB + NB ≤ b.cap := by
      have h1 : (i + 1) * NB ≤ (i + (rem + 1)) * NB := Nat.mul_le_mul_right _ (by omega)
      have h2 : (i + 1) * NB = i * NB + NB := Nat.succ_mul i NB
      omega
    rw [extractLoop_step hNB hnum1 hnumA haL hbL hle rem,
      ih (i + 1) (by have e : i + 1 + rem = i + (rem + 1) := by omega
                     rw [e]
                     exact h)]
    simp [Except.map, List.range'_succ]

lemma extractLoop_panic {b : ByteSlice} {num A c NB : Nat} {aL bL : List ℚ}
    (hNB : NB = 8 + 2 * A + 2 * c) (hnum1 : 1 ≤ num) (hnumA : num ≤ A)
    (haL : num - 1 < aL.length) (hbL : num - 1 < bL.length) :
    ∀ rem i, b.cap < (i + rem + 1) * NB →
      extractLoop b NB num aL bL (rem + 1) i = .error .panicSliceOutOfRange := by
  intro rem
  induction rem with
  | zero =>
    intro i h
    have hlt : b.cap < i * NB + NB := by
      have h2 : (i + 0 + 1) * NB = i * NB + NB := by
        rw [show i + 0 + 1 = i + 1 from rfl]
        exact Nat.succ_mul i NB
      omega
    unfold extractLoop
    rw [goSlice_err hlt]
    simp [Bind.bind, Except.bind]
  | succ rem ih =>
    intro i h
    by_cases hcase : i * NB + NB ≤ b.cap
    · rw [extractLoop_step hNB hnum1 hnumA haL hbL hcase (rem + 1),
        ih (i + 1) (by have e : i + 1 + rem + 1 = i + (rem + 1) + 1 := by omega
                       rw [e]
                       exact h)]
      simp [Except.map]
    · unfold extractLoop
      rw [goSlice_err (by omega)]
      simp [Bind.bind, Except.bind]

/-- Reduction of `GetAnalogChannelData` to its sample loop once the four
front checks pass. -/
lemma GetAnalog_reduce {cfg : CFG} {b : ByteSlice} {num : Nat}
    (hdata : b.data ≠ []) (hnum1 : 1 ≤ num) (hnumA : num ≤ cfg.AnalogDetail.ChannelTotal)
    (hsd : cfg.SampleDetail ≠ []) :
    GetAnalogChannelData (ReadDAT cfg b) num =
      extractLoop b (NBof cfg.AnalogDetail.ChannelTotal cfg.DigitDetail.ChannelTotal) num
        cfg.AnalogDetail.FactorsA cfg.AnalogDetail.FactorsB
        (cfg.SampleDetail.getD 0 ⟨0, 0⟩).Number.toNat 0 := by
  unfold GetAnalogChannelData ReadDAT
  dsimp only
  rw [if_neg hdata, if_neg (by omega : ¬ cfg.AnalogDetail.ChannelTotal < num),
    if_neg (by omega : ¬ num < 1), if_neg hsd]

lemma NBof_expand (aTot dTot : Nat) :
    NBof aTot dTot = 8 + 2 * aTot + 2 * ceilDiv16 dTot := by
  unfold NBof
  simp [Nat.shiftLeft_eq]
  ring

lemma specAnalogSeries_eq (data : List Nat) (NB : Nat) (aL bL : List ℚ) (num N : Nat) :
    specAnalogSeries data NB aL bL num N = (List.range' 0 N).map (calAt data NB aL bL num) := by
  unfold specAnalogSeries calAt
  rw [List.range_eq_range']

/-! ### Further inversion and frame lemmas for the header phase -/

lemma getD_eq_some {lines : List (List Char)} {k : Nat} {v : List Char}
    (hv : v ≠ []) (h : lines.getD k [] = v) : lines[k]? = some v := by
  rw [List.getD_eq_getElem?_getD] at h
  cases hx : lines[k]? with
  | none =>
    rw [hx] at h
    simp at h
    exact absurd h.symm (fun he => hv he.symm)
  | some w =>
    rw [hx] at h
    simp at h
    rw [h]

lemma readLine0_ok_inv {lines : List (List Char)} {h0 : List Char × List Char × Nat}
    (h : readLine0 lines = .ok h0) :
    ∃ l0, lines[0]? = some l0 ∧ readLine0T (splitOnChar ',' l0) = .ok h0 := by
  unfold readLine0 at h
  rcases exceptBindOk.mp h with ⟨l0, hl0, h⟩
  exact ⟨l0, getLine_ok.mp hl0, h⟩

lemma readLine1_ok_inv {lines : List (List Char)} {trip : Nat × Nat × Nat}
    (h : readLine1 lines = .ok trip) :
    ∃ l1, lines[1]? = some l1 ∧
      parseUintBits 16 (ByteToString ((splitOnChar ',' l1).getD 0 [])) = .ok trip.1 ∧
      parseUintBits 16 (trimSuffixChar 'A' (trimSpace ((splitOnChar ',' l1).getD 1 []))) = .ok trip.2.1 ∧
      parseUintBits 16 (trimSuffixChar 'D' (trimSpace ((splitOnChar ',' l1).getD 2 []))) = .ok trip.2.2 := by
  unfold readLine1 at h
  rcases exceptBindOk.mp h with ⟨l1, hl1, h⟩
  unfold readLine1T at h
  split at h
  · exact absurd h (by simp)
  · rcases exceptBindOk.mp h with ⟨total, htot, h⟩
    split at h
    · exact absurd h (by simp)
    · rcases exceptBindOk.mp h with ⟨aTot, ha, h⟩
      rcases exceptBindOk.mp h with ⟨dTot, hd, h⟩
      simp only [pure, Except.pure, Except.ok.injEq] at h
      subst h
      exact ⟨l1, getLine_ok.mp hl1, htot, ha, hd⟩

lemma readLine0_frame {lines : List (List Char)} {k : Nat} {v : List Char}
    (h : k ≠ 0) : readLine0 (lines.set k v) = readLine0 lines := by
  unfold readLine0
  exact bindCongr (getLine_set_ne h) fun l => rfl

lemma readLine1_frame {lines : List (List Char)} {k : Nat} {v : List Char}
    (h : k ≠ 1) : readLine1 (lines.set k v) = readLine1 lines := by
  unfold readLine1
  exact bindCongr (getLine_set_ne h) fun l => rfl

lemma readUpToChannels_frame {lines : List (List Char)} {k : Nat} {v : List Char}
    {st : HeaderState} (hst : readUpToChannels lines = .ok st)
    (hk : 2 + st.chA.ChannelTotal + st.chD.ChannelTotal ≤ k) :
    readUpToChannels (lines.set k v) = .ok st := by
  rcases readUpToChannels_ok_inv hst with ⟨h0, h1, chA, chD, hh0, hh1, hchA, hchD, hsteq⟩
  obtain ⟨htotA, _, _, _⟩ := readAnalogLoop_ok_inv _ _ _ _ hchA
  obtain ⟨htotD, _⟩ := readDigitLoop_ok_inv _ _ _ _ hchD
  simp only [emptyChannelA, emptyChannelD] at htotA htotD
  have hA : st.chA.ChannelTotal = h1.2.1 := by rw [hsteq]; simpa using htotA
  have hD : st.chD.ChannelTotal = h1.2.2 := by rw [hsteq]; simpa using htotD
  rw [hA, hD] at hk
  unfold readUpToChannels
  refine exceptBindOk.mpr ⟨h0, ?_, ?_⟩
  · rw [readLine0_frame (by omega)]
    exact hh0
  refine exceptBindOk.mpr ⟨h1, ?_, ?_⟩
  · rw [readLine1_frame (by omega)]
    exact hh1
  refine exceptBindOk.mpr ⟨chA, ?_, ?_⟩
  · rw [readAnalogLoop_frame _ _ _ (Or.inr (by omega))]
    exact hchA
  refine exceptBindOk.mpr ⟨chD, ?_, ?_⟩
  · rw [readDigitLoop_frame _ _ _ (Or.inr (by omega))]
    exact hchD
  rw [hsteq]
  rfl

/-- A line whose full content is `0` cannot be any of the lines consumed by the
header phase (header lines need 2 and 3 comma fields, channel rows 10 and 3),
so its index lies at or beyond `2 + A + D`. -/
lemma zeroLine_beyond_channels {lines : List (List Char)} {st : HeaderState} {k : Nat}
    (hst : readUpToChannels lines = .ok st)
    (hk : lines[k]? = some ['0']) :
    2 + st.chA.ChannelTotal + st.chD.ChannelTotal ≤ k := by
  rcases readUpToChannels_ok_inv hst with ⟨h0, h1, chA, chD, hh0, hh1, hchA, hchD, hsteq⟩
  obtain ⟨htotA, _, _, hrangeA⟩ := readAnalogLoop_ok_inv _ _ _ _ hchA
  obtain ⟨htotD, hrangeD⟩ := readDigitLoop_ok_inv _ _ _ _ hchD
  simp only [emptyChannelA, emptyChannelD] at htotA htotD
  have hA : st.chA.ChannelTotal = h1.2.1 := by rw [hsteq]; simpa using htotA
  have hD : st.chD.ChannelTotal = h1.2.2 := by rw [hsteq]; simpa using htotD
  rw [hA, hD]
  by_contra hlt
  push_neg at hlt
  rcases Nat.lt_or_ge k 2 with hk2 | hk2
  · rcases Nat.lt_or_ge k 1 with hk1 | hk1
    · have hk0 : k = 0 := by omega
      subst hk0
      rcases readLine0_ok_inv hh0 with ⟨l0, hl0, hT⟩
      rw [hk] at hl0
      have hl0' : l0 = ['0'] := (Option.some.inj hl0).symm
      rw [hl0'] at hT
      have hbad : readLine0T (splitOnChar ',' ['0']) = .error (.errFirstLine 1) := by decide
      rw [hbad] at hT
      exact absurd hT (by simp)
    · have hk1' : k = 1 := by omega
      subst hk1'
      have hT2 : readLine1 lines = .ok h1 := hh1
      unfold readLine1 at hT2
      rcases exceptBindOk.mp hT2 with ⟨lx, hlx, hTT⟩
      rw [getLine_ok, hk] at hlx
      have hlx' : lx = ['0'] := (Option.some.inj hlx).symm
      rw [hlx'] at hTT
      have hbad : readLine1T (splitOnChar ',' ['0']) = .error (.errSecondLine 1) := by decide
      rw [hbad] at hTT
      exact absurd hTT (by simp)
  · rcases Nat.lt_or_ge k (2 + h1.2.1) with hkA | hkA
    · obtain ⟨line, hline, hlen10⟩ := hrangeA (k - 2) (Nat.zero_le _) (by omega)
      have e : 2 + (k - 2) = k := by omega
      rw [e, hk] at hline
      have hl : line = ['0'] := (Option.some.inj hline).symm
      rw [hl] at hlen10
      have hsplit : (splitOnChar ',' ['0']).length = 1 := by decide
      omega
    · obtain ⟨line, hline, hlen3⟩ := hrangeD (k - (2 + h1.2.1)) (Nat.zero_le _) (by omega)
      have e : 2 + h1.2.1 + (k - (2 + h1.2.1)) = k := by omega
      rw [e, hk] at hline
      have hl : line = ['0'] := (Option.some.inj hline).symm
      rw [hl] at hlen3
      have hsplit : (splitOnChar ',' ['0']).length = 1 := by decide
      omega

lemma readRateNum_eval {lines : List (List Char)} {aTot dTot : Nat} {l : List Char} {n : Nat}
    (hl : lines[m16 (3 + aTot + dTot)]? = some l)
    (hp : parseUintBits 16 (ByteToString ((splitOnChar ',' l).getD 0 [])) = .ok n) :
    readRateNum lines aTot dTot = .ok (if n = 0 then 1 else n) := by
  unfold readRateNum getLine
  rw [hl]
  rw [List.getD_eq_getElem?_getD] at hp
  simp [Bind.bind, Except.bind, hp, pure, Except.pure]

/-- The six mandatory numeric fields of an analog channel row all parse. -/
def analogMandatoryOK (t : List (List Char)) : Prop :=
  10 ≤ t.length ∧
  (∃ v, parseGoInt (ByteToString (t.getD 0 [])) = .ok v) ∧
  (∃ v, parseFloatQ (ByteToString (t.getD 5 [])) = .ok v) ∧
  (∃ v, parseFloatQ (ByteToString (t.getD 6 [])) = .ok v) ∧
  (∃ v, parseFloatQ (ByteToString (t.getD 7 [])) = .ok v) ∧
  (∃ v, parseGoInt (ByteToString (t.getD 8 [])) = .ok v) ∧
  (∃ v, parseGoInt (ByteToString (t.getD 9 [])) = .ok v)

lemma processAnalogRowT_ok_of_mandatory {i : Nat} {t : List (List Char)} {acc : ChannelA}
    (h : analogMandatoryOK t) : ∃ acc', processAnalogRowT i t acc = .ok acc' := by
  obtain ⟨hlen, ⟨v0, h0⟩, ⟨v5, h5⟩, ⟨v6, h6⟩, ⟨v7, h7⟩, ⟨v8, h8⟩, ⟨v9, h9⟩⟩ := h
  unfold processAnalogRowT
  rw [if_neg (by omega)]
  simp only [Bind.bind, Except.bind, h0, h5, h6, h7, h8, h9, pure, Except.pure]
  exact ⟨_, rfl⟩

/-! ### Concrete documents -/

def strL (s : String) : List Char := s.toList

/-- Retrieve the decoded configuration of a document (defaulting to the zero
configuration, as a Go caller would hold after a failed decode). -/
def cfgOf (lines : List (List Char)) : CFG :=
  (readCFGlines lines).toOption.getD NewCFG

/-- Retrieve the decoded header state of a document. -/
def hdrOf (lines : List (List Char)) : HeaderState :=
  (readUpToChannels lines).toOption.getD ⟨[], [], 0, 0, emptyChannelA, emptyChannelD⟩

/-- An 11-line document the decoder accepts: one analog channel with factors
2.0 / 1.0, no digital channels, one sample-rate entry with one sample. -/
def doc1 : List (List Char) :=
  [strL "ST,DEV",
   strL "1,1A,0D",
   strL "1,VA,A,,V,2.0,1.0,0.0,-1,1",
   strL "50",
   strL "1",
   strL "1000,1",
   strL "01/01/2020,10:30:00.000000",
   strL "01/01/2020,10:30:00.000000",
   strL "BINARY",
   strL "1",
   strL "x"]

def cfg1 : CFG := cfgOf doc1

/-- Like `doc1` but the single sample-rate entry declares zero samples. -/
def doc1z : List (List Char) :=
  [strL "ST,DEV",
   strL "1,1A,0D",
   strL "1,VA,A,,V,2.0,1.0,0.0,-1,1",
   strL "50",
   strL "1",
   strL "1000,0",
   strL "01/01/2020,10:30:00.000000",
   strL "01/01/2020,10:30:00.000000",
   strL "BINARY",
   strL "1",
   strL "x"]

/-- Like `doc1` but with a whitespace-padded, internally-spaced channel name. -/
def doc5 : List (List Char) :=
  [strL "ST,DEV",
   strL "1,1A,0D",
   strL "1, Line A ,A,,V,2.0,1.0,0.0,-1,1",
   strL "50",
   strL "1",
   strL "1000,1",
   strL "01/01/2020,10:30:00.000000",
   strL "01/01/2020,10:30:00.000000",
   strL "BINARY",
   strL "1",
   strL "x"]

/-- Like `doc1` but the start-timestamp line is written as six comma-separated
sub-fields `DD,MM,YYYY,HH,MM,SS.ffffff`. -/
def doc6 : List (List Char) :=
  [strL "ST,DEV",
   strL "1,1A,0D",
   strL "1,VA,A,,V,2.0,1.0,0.0,-1,1",
   strL "50",
   strL "1",
   strL "1000,1",
   strL "01,01,2020,10,30,00.000000",
   strL "01/01/2020,10:30:00.000000",
   strL "BINARY",
   strL "1",
   strL "x"]

/-- A document whose declared total channel count (5) differs from the sum of
the analog (1) and digital (1) totals; the decoder accepts it. -/
def doc7 : List (List Char) :=
  [strL "ST,DEV",
   strL "5,1A,1D",
   strL "1,VA,A,,V,2.0,1.0,0.0,-1,1",
   strL "1,D1,N",
   strL "50",
   strL "1",
   strL "1000,1",
   strL "01/01/2020,10:30:00.000000",
   strL "01/01/2020,10:30:00.000000",
   strL "BINARY",
   strL "1",
   strL "x"]

/-- Like `doc1` but the sample-rate-entry-count line reads `0`. -/
def doc8 : List (List Char) :=
  [strL "ST,DEV",
   strL "1,1A,0D",
   strL "1,VA,A,,V,2.0,1.0,0.0,-1,1",
   strL "50",
   strL "0",
   strL "1000,1",
   strL "01/01/2020,10:30:00.000000",
   strL "01/01/2020,10:30:00.000000",
   strL "BINARY",
   strL "1",
   strL "x"]

/-- Like `doc1` but the single sample-rate entry declares 52 samples, so the
extractor needs `52 * 10 = 520` bytes — more than the 512-byte capacity of a
short `ReadAll` buffer. -/
def doc3s : List (List Char) :=
  [strL "ST,DEV",
   strL "1,1A,0D",
   strL "1,VA,A,,V,2.0,1.0,0.0,-1,1",
   strL "50",
   strL "1",
   strL "1000,52",
   strL "01/01/2020,10:30:00.000000",
   strL "01/01/2020,10:30:00.000000",
   strL "BINARY",
   strL "1",
   strL "x"]

def cfg3s : CFG := cfgOf doc3s

/-- The fields of an analog row with an unparsable 11th (primary ratio) field. -/
def t10 : List (List Char) := splitOnChar ',' (strL "1,VA,A,,V,2.0,1.0,0.0,-1,1,zz")

/-- The fields of a digital row with an unparsable 5th (initial state) field. -/
def td5 : List (List Char) := splitOnChar ',' (strL "1,D1,N,,zz")

def row10 : ChannelA := (processAnalogRowT 0 t10 emptyChannelA).toOption.getD emptyChannelA

def row5 : ChannelA :=
  (processAnalogRowT 0 (splitOnChar ',' (strL "1, Line A ,A,,V,2.0,1.0,0.0,-1,1"))
    emptyChannelA).toOption.getD emptyChannelA

/-- The digital row with the same spaced name field, processed from scratch. -/
def rowD5 : ChannelD :=
  (processDigitRowT 0 (splitOnChar ',' (strL "1, Line A ,N"))
    emptyChannelD).toOption.getD emptyChannelD

/-! ### Claims -/

/-- C2 (confirmed): the per-record byte size `NB` used by the sample extractor
for a configuration with `A` analog and `D` digital channels equals
`8 + 2*A + 2*ceil(D/16)` bytes; in particular `A = 3, D = 20` gives `NB = 18`. -/
theorem c2_record_size (A D : Nat) :
    NBof A D = 8 + 2 * A + 2 * ((D + 15) / 16) ∧ NBof 3 20 = 18 :=
  ⟨NBof_eq A D, by decide⟩

/-- C4, counterexample: a one-line document (a valid header line but nothing
after it) makes ReadCFG fail with the untyped index-out-of-range panic, not
with a typed `TruncatedDocument` error — no such error exists in the code. -/
theorem c4_counterexample :
    readCFGlines [strL "ST,DEV"] = .error .panicIndexOutOfRange := by decide

/-- C4 (corrected): ReadCFG never returns normally when a line it needs is
out of range — success implies even the optional-line index
`8 + SampleRateNum + A + D` (computed in uint16 arithmetic) is strictly inside
the document; on a truncated document the decoder fails with the untyped
index-out-of-range panic shown by the counterexample, never with a typed
`TruncatedDocument` error, which does not exist in the code. -/
theorem c4_truncation (lines : List (List Char)) (cfg : CFG)
    (h : readCFGlines lines = .ok cfg) :
    m16 (8 + cfg.SampleRateNum + cfg.AnalogDetail.ChannelTotal + cfg.DigitDetail.ChannelTotal)
      < lines.length := by
  rcases readCFGlines_ok_inv h with ⟨st, hst, htail⟩
  rcases readTail_ok_inv htail with ⟨freq, rateNum, rates, sT, tT, dft, tf, codes,
    _, _, _, _, _, _, h7, h8, hcfg⟩
  subst hcfg
  show m16 (8 + rateNum + st.chA.ChannelTotal + st.chD.ChannelTotal) < lines.length
  have htf := readTimeFactor_ok_lt h7
  rcases readOptional_ok_cases h8 with hlt | hlt
  · exfalso
    have he : 8 + rateNum + st.chA.ChannelTotal + st.chD.ChannelTotal =
        7 + rateNum + st.chA.ChannelTotal + st.chD.ChannelTotal + 1 := by omega
    rw [he] at hlt
    rw [m16_succ] at hlt
    unfold m16 at htf hlt
    omega
  · exact hlt

theorem c4_truncation_witness :
    m16 (8 + cfg1.SampleRateNum + cfg1.AnalogDetail.ChannelTotal +
      cfg1.DigitDetail.ChannelTotal) < doc1.length :=
  c4_truncation doc1 cfg1 (by decide)

/-- C5, counterexample: for the whitespace-padded name field `" Line A "` the
decoder stores `"_Line_A_"`, not `"Line_A"` as the claim states, because the
space-to-underscore replacement is applied before the trim. -/
theorem c5_counterexample :
    readCFGlines doc5 = .ok (cfgOf doc5) ∧
    (cfgOf doc5).AnalogDetail.ChannelNames = [strL "_Line_A_"] ∧
    (cfgOf doc5).AnalogDetail.ChannelNames ≠ [strL "Line_A"] :=
  ⟨by decide, by decide, by decide⟩

/-- C5 (corrected): for every analog AND every digital channel row the stored
channel name is the raw name field first split on spaces and joined with
underscores, and only then trimmed (`goFormatName`); hence `"Line A"` is
stored as `"Line_A"`, but the padded `" Line A "` is stored as `"_Line_A_"`
— the leading/trailing spaces become underscores that survive the trim. -/
theorem c5_name_formatting :
    (∀ i t (acc acc' : ChannelA), processAnalogRowT i t acc = .ok acc' →
      acc'.ChannelNames = acc.ChannelNames ++ [goFormatName (t.getD 1 [])]) ∧
    (∀ i t (acc acc' : ChannelD), processDigitRowT i t acc = .ok acc' →
      acc'.ChannelNames = acc.ChannelNames ++ [goFormatName (t.getD 1 [])]) ∧
    goFormatName (strL "Line A") = strL "Line_A" ∧
    goFormatName (strL " Line A ") = strL "_Line_A_" :=
  ⟨fun i t acc acc' h => (processAnalogRowT_ok_inv h).2.2.2.2.1,
   fun i t acc acc' h => (processDigitRowT_ok_inv h).2.2,
   by decide, by decide⟩

theorem c5_name_formatting_witness :
    (processAnalogRowT 0 (splitOnChar ',' (strL "1, Line A ,A,,V,2.0,1.0,0.0,-1,1"))
      emptyChannelA = .ok row5 ∧
     row5.ChannelNames = emptyChannelA.ChannelNames ++
      [goFormatName
        ((splitOnChar ',' (strL "1, Line A ,A,,V,2.0,1.0,0.0,-1,1")).getD 1 [])]) ∧
    (processDigitRowT 0 (splitOnChar ',' (strL "1, Line A ,N")) emptyChannelD =
      .ok rowD5 ∧
     rowD5.ChannelNames = emptyChannelD.ChannelNames ++
      [goFormatName ((splitOnChar ',' (strL "1, Line A ,N")).getD 1 [])]) :=
  ⟨⟨by decide, c5_name_formatting.1 0 _ emptyChannelA row5 (by decide)⟩,
   ⟨by decide, c5_name_formatting.2.1 0 _ emptyChannelD rowD5 (by decide)⟩⟩

/-- C6, counterexample: a start-timestamp line of six comma-separated
sub-fields `01,01,2020,10,30,00.000000` is joined with the literal `T` into
`01T01T2020T10T30T00.000000`, which the fixed layout rejects, so ReadCFG
fails instead of storing the timestamps. -/
theorem c6_counterexample :
    readCFGlines doc6 = .error (.timeParseError (strL "01T01T2020T10T30T00.000000")) := by
  decide

/-- C6 (corrected): the timestamp lines are comma-split, joined with the
literal `T`, trimmed and parsed against the fixed
`02/01/2006T15:04:05.000000` layout, and the parsed start and trigger
timestamps are stored; this succeeds for two-field lines
`DD/MM/YYYY,HH:MM:SS.ffffff` and never for the six-field
`DD,MM,YYYY,HH,MM,SS.ffffff` form refuted by the counterexample. -/
theorem c6_timestamps (lines : List (List Char)) (cfg : CFG)
    (h : readCFGlines lines = .ok cfg) :
    ∃ ls lt,
      lines[m16 (4 + cfg.SampleRateNum + cfg.AnalogDetail.ChannelTotal +
        cfg.DigitDetail.ChannelTotal)]? = some ls ∧
      parseTimestamp (ByteToString (joinWith 'T' (splitOnChar ',' ls))) = .ok cfg.StartTime ∧
      lines[m16 (5 + cfg.SampleRateNum + cfg.AnalogDetail.ChannelTotal +
        cfg.DigitDetail.ChannelTotal)]? = some lt ∧
      parseTimestamp (ByteToString (joinWith 'T' (splitOnChar ',' lt))) = .ok cfg.TriggerTime := by
  rcases readCFGlines_ok_inv h with ⟨st, hst, htail⟩
  rcases readTail_ok_inv htail with ⟨freq, rateNum, rates, sT, tT, dft, tf, codes,
    _, _, _, h4, h5, _, _, _, hcfg⟩
  subst hcfg
  rcases readTimeLine_ok_inv h4 with ⟨ls, hls, hpls⟩
  rcases readTimeLine_ok_inv h5 with ⟨lt, hlt2, hplt⟩
  exact ⟨ls, lt, hls, hpls, hlt2, hplt⟩

theorem c6_timestamps_witness :
    parseTimestamp (ByteToString (joinWith 'T'
      (splitOnChar ',' (strL "01/01/2020,10:30:00.000000")))) = .ok cfg1.StartTime := by
  obtain ⟨ls, lt, hls, hpls, _, _⟩ := c6_timestamps doc1 cfg1 (by decide)
  have hidx : m16 (4 + cfg1.SampleRateNum + cfg1.AnalogDetail.ChannelTotal +
      cfg1.DigitDetail.ChannelTotal) = 6 := by decide
  rw [hidx] at hls
  have h6 : doc1[(6 : Nat)]? = some (strL "01/01/2020,10:30:00.000000") := by decide
  rw [h6] at hls
  have he : strL "01/01/2020,10:30:00.000000" = ls := Option.some.inj hls
  rw [← he] at hpls
  exact hpls

/-- C7, counterexample: a document declaring total channel count 5 with 1
analog and 1 digital channel decodes successfully — the stored total differs
from the sum of the stored channel totals, so no consistency check exists. -/
theorem c7_counterexample :
    readCFGlines doc7 = .ok (cfgOf doc7) ∧
    (cfgOf doc7).ChannelNumber = 5 ∧
    (cfgOf doc7).AnalogDetail.ChannelTotal = 1 ∧
    (cfgOf doc7).DigitDetail.ChannelTotal = 1 ∧
    (cfgOf doc7).ChannelNumber ≠
      (cfgOf doc7).AnalogDetail.ChannelTotal + (cfgOf doc7).DigitDetail.ChannelTotal :=
  ⟨by decide, by decide, by decide, by decide, by decide⟩

/-- C7 (corrected): the three counts are stored exactly as parsed from the
second line — the declared total from field 0, the tagged analog and digital
totals from fields 1 and 2 — and nothing checks the total against `A + D`;
the invariant holds only for documents that declare a consistent total. -/
theorem c7_counts_independent (lines : List (List Char)) (cfg : CFG)
    (h : readCFGlines lines = .ok cfg) :
    parseUintBits 16 (ByteToString ((splitOnChar ',' (lines.getD 1 [])).getD 0 [])) =
      .ok cfg.ChannelNumber ∧
    parseUintBits 16
        (trimSuffixChar 'A' (trimSpace ((splitOnChar ',' (lines.getD 1 [])).getD 1 []))) =
      .ok cfg.AnalogDetail.ChannelTotal ∧
    parseUintBits 16
        (trimSuffixChar 'D' (trimSpace ((splitOnChar ',' (lines.getD 1 [])).getD 2 []))) =
      .ok cfg.DigitDetail.ChannelTotal := by
  rcases readCFGlines_ok_inv h with ⟨st, hst, htail⟩
  rcases readUpToChannels_ok_inv hst with ⟨h0, h1, chA, chD, hh0, hh1, hchA, hchD, hsteq⟩
  obtain ⟨htotA, _, _, _⟩ := readAnalogLoop_ok_inv _ _ _ _ hchA
  obtain ⟨htotD, _⟩ := readDigitLoop_ok_inv _ _ _ _ hchD
  simp only [emptyChannelA, emptyChannelD] at htotA htotD
  rcases readLine1_ok_inv hh1 with ⟨l1, hl1, hp0, hp1, hp2⟩
  have hgd : lines.getD 1 [] = l1 := by
    rw [List.getD_eq_getElem?_getD, hl1]
    rfl
  rcases readTail_ok_inv htail with ⟨freq, rateNum, rates, sT, tT, dft, tf, codes,
    _, _, _, _, _, _, _, _, hcfg⟩
  subst hcfg
  subst hsteq
  rw [hgd]
  refine ⟨hp0, ?_, ?_⟩
  · show parseUintBits 16 (trimSuffixChar 'A' (trimSpace ((splitOnChar ',' l1).getD 1 []))) =
      .ok chA.ChannelTotal
    rw [show chA.ChannelTotal = h1.2.1 from by simpa using htotA]
    exact hp1
  · show parseUintBits 16 (trimSuffixChar 'D' (trimSpace ((splitOnChar ',' l1).getD 2 []))) =
      .ok chD.ChannelTotal
    rw [show chD.ChannelTotal = h1.2.2 from by simpa using htotD]
    exact hp2

theorem c7_counts_independent_witness :
    parseUintBits 16 (ByteToString ((splitOnChar ',' (doc1.getD 1 [])).getD 0 [])) =
      .ok cfg1.ChannelNumber ∧
    parseUintBits 16
        (trimSuffixChar 'A' (trimSpace ((splitOnChar ',' (doc1.getD 1 [])).getD 1 []))) =
      .ok cfg1.AnalogDetail.ChannelTotal ∧
    parseUintBits 16
        (trimSuffixChar 'D' (trimSpace ((splitOnChar ',' (doc1.getD 1 [])).getD 2 []))) =
      .ok cfg1.DigitDetail.ChannelTotal :=
  c7_counts_independent doc1 cfg1 (by decide)

/-- C9 (code bug): `doc1` with its 11th line removed has exactly
`8 + SampleRateNum + A + D = 10` lines, so every mandatory section decodes,
yet the optional-line guard `len(lines) >= optionalLineNum` passes with
equality and `lines[optionalLineNum]` panics; the same document with any 11th
line present decodes successfully. -/
theorem c9_optional_guard_offbyone :
    readCFGlines doc1 = .ok (cfgOf doc1) ∧
    readCFGlines (doc1.take 10) = .error .panicIndexOutOfRange :=
  ⟨by decide, by decide⟩

/-- C10 (confirmed): an unparsable optional analog ratio field (the 11th or
12th) is silently skipped — given the mandatory fields parse, the row still
succeeds and no entry is appended to `Primary`/`Secondary` — whereas an
unparsable 5th digital field aborts the decode with an error. -/
theorem c10_optional_asymmetry :
    (∀ i t (acc : ChannelA), analogMandatoryOK t →
      ∃ acc', processAnalogRowT i t acc = .ok acc') ∧
    (∀ i t (acc acc' : ChannelA) e, processAnalogRowT i t acc = .ok acc' →
      11 ≤ t.length → parseFloatQ (ByteToString (t.getD 10 [])) = .error e →
      acc'.Primary = acc.Primary) ∧
    (∀ i t (acc acc' : ChannelA) e, processAnalogRowT i t acc = .ok acc' →
      12 ≤ t.length → parseFloatQ (ByteToString (t.getD 11 [])) = .error e →
      acc'.Secondary = acc.Secondary) ∧
    (∀ i t (acc : ChannelD) e, 5 ≤ t.length →
      parseUintBits 8 (ByteToString (t.getD 4 [])) = .error e →
      ∃ e', processDigitRowT i t acc = .error e') := by
  refine ⟨fun i t acc h => processAnalogRowT_ok_of_mandatory h, ?_, ?_, ?_⟩
  · intro i t acc acc' e hok hlen hbad
    obtain ⟨_, _, _, _, _, hPrim, _⟩ := processAnalogRowT_ok_inv hok
    rw [hPrim, if_pos (by omega : 10 < t.length), hbad]
  · intro i t acc acc' e hok hlen hbad
    obtain ⟨_, _, _, _, _, _, hSec⟩ := processAnalogRowT_ok_inv hok
    rw [hSec, if_pos (by omega : 11 < t.length), hbad]
  · intro i t acc e hlen hbad
    exact processDigitRowT_err_field4 (by omega) hbad

theorem c10_optional_asymmetry_witness :
    (processAnalogRowT 0 t10 emptyChannelA = .ok row10 ∧ row10.Primary = []) ∧
    (∃ e', processDigitRowT 0 td5 emptyChannelD = .error e') :=
  ⟨⟨by decide, by
      have h := c10_optional_asymmetry.2.1 0 t10 emptyChannelA row10
        (.numError (strL "zz")) (by decide) (by decide) (by decide)
      simpa using h⟩,
   c10_optional_asymmetry.2.2.2 0 td5 emptyChannelD (.numError (strL "zz"))
     (by decide) (by decide)⟩

/-- C1, counterexample: ReadCFG accepts a configuration whose first
sample-rate entry declares 0 samples; the empty buffer (as `ReadAll` returns
it for an empty source: no bytes, capacity 512) has length `0 ≥ 0 * NB`, and
channel 1 lies in `[1, analogChannelTotal]`, yet `GetAnalogChannelData` fails
with the empty-data error instead of succeeding with an empty sequence. -/
theorem c1_counterexample :
    readCFGlines doc1z = .ok (cfgOf doc1z) ∧
    ((cfgOf doc1z).SampleDetail.getD 0 ⟨0, 0⟩).Number = 0 ∧
    (cfgOf doc1z).AnalogDetail.ChannelTotal = 1 ∧
    GetAnalogChannelData (ReadDAT (cfgOf doc1z) ⟨[], 512⟩) 1 = .error .errNoData :=
  ⟨by decide, by decide, by decide, by decide⟩

/-- C1 (corrected): for every configuration decoded by ReadCFG, every
NON-EMPTY buffer of length at least `max(sampleCount,0) * NB` and every
channel number in `[1, analogChannelTotal]`, `GetAnalogChannelData` succeeds
and returns exactly `max(sampleCount,0)` values, the `i`-th being the signed
16-bit little-endian raw sample of the channel in record `i` multiplied by
conversion factor A and plus conversion factor B of that channel
(`specAnalogSeries`). -/
theorem c1_calibrated_series (lines : List (List Char)) (cfg : CFG) (b : ByteSlice)
    (num : Nat) (h : readCFGlines lines = .ok cfg) (hnum1 : 1 ≤ num)
    (hnumA : num ≤ cfg.AnalogDetail.ChannelTotal) (hdata : b.data ≠ [])
    (hlen : (cfg.SampleDetail.getD 0 ⟨0, 0⟩).Number.toNat *
      NBof cfg.AnalogDetail.ChannelTotal cfg.DigitDetail.ChannelTotal ≤ b.data.length) :
    GetAnalogChannelData (ReadDAT cfg b) num =
      .ok (specAnalogSeries b.data
        (NBof cfg.AnalogDetail.ChannelTotal cfg.DigitDetail.ChannelTotal)
        cfg.AnalogDetail.FactorsA cfg.AnalogDetail.FactorsB num
        (cfg.SampleDetail.getD 0 ⟨0, 0⟩).Number.toNat) := by
  obtain ⟨hfa, hfb, hsl, hsr, _⟩ := readCFG_ok_facts h
  have hsd : cfg.SampleDetail ≠ [] := by
    intro he
    rw [he] at hsl
    simp at hsl
    omega
  rw [GetAnalog_reduce hdata hnum1 hnumA hsd]
  have hcap : (cfg.SampleDetail.getD 0 ⟨0, 0⟩).Number.toNat *
      NBof cfg.AnalogDetail.ChannelTotal cfg.DigitDetail.ChannelTotal ≤ b.cap := by
    unfold ByteSlice.cap
    omega
  rw [extractLoop_ok (NBof_expand _ _) hnum1 hnumA (by omega) (by omega) _ 0
    (by simpa using hcap)]
  rw [specAnalogSeries_eq]

theorem c1_calibrated_series_witness :
    readCFGlines doc1 = .ok cfg1 ∧
    GetAnalogChannelData (ReadDAT cfg1 ⟨[0, 0, 0, 0, 0, 0, 0, 0, 10, 0], 502⟩) 1 = .ok [21] :=
  ⟨by decide,
   (c1_calibrated_series doc1 cfg1 ⟨[0, 0, 0, 0, 0, 0, 0, 0, 10, 0], 502⟩ 1 (by decide)
      (by decide) (by decide) (by decide) (by decide)).trans (by decide)⟩

/-- C3, counterexample: for the decoded `doc1` configuration (`NB = 10`, one
declared sample) and the 5-byte buffer `[1,2,3,4,5]` — which `ReadAll`
returns with capacity 512 and a zeroed spare — `GetAnalogChannelData`
SUCCEEDS: the record slice `[0:10]` is within the capacity, the sample bytes
at offsets 8 and 9 read as 0, and the call silently fabricates the value
`0 * 2.0 + 1.0 = 1.0`; no typed `TruncatedSampleData` error (which does not
exist in the code) and no panic occurs. -/
theorem c3_counterexample :
    readCFGlines doc1 = .ok cfg1 ∧
    GetAnalogChannelData (ReadDAT cfg1 ⟨[1, 2, 3, 4, 5], 507⟩) 1 = .ok [1] :=
  ⟨by decide, by decide⟩

/-- C3 (corrected): no typed `TruncatedSampleData` error exists in the code.
For every decoded configuration, channel number in `[1, analogChannelTotal]`
and non-empty buffer shorter than `sampleCount * NB`, the outcome depends on
the buffer's CAPACITY (for a `ReadAll` buffer at least `max(512, len)`, its
spare zero-filled), never on its length: when `sampleCount * NB` fits within
the capacity the call SILENTLY SUCCEEDS with the full `sampleCount`-value
series, the missing sample bytes reading as zero; when it exceeds the
capacity the call fails with the untyped out-of-range slice panic.  A
sequence shorter than `sampleCount` is never returned. -/
theorem c3_short_buffer (lines : List (List Char)) (cfg : CFG) (b : ByteSlice)
    (num : Nat) (h : readCFGlines lines = .ok cfg) (hnum1 : 1 ≤ num)
    (hnumA : num ≤ cfg.AnalogDetail.ChannelTotal) (hdata : b.data ≠ [])
    (hshort : b.data.length < (cfg.SampleDetail.getD 0 ⟨0, 0⟩).Number.toNat *
      NBof cfg.AnalogDetail.ChannelTotal cfg.DigitDetail.ChannelTotal) :
    ((cfg.SampleDetail.getD 0 ⟨0, 0⟩).Number.toNat *
        NBof cfg.AnalogDetail.ChannelTotal cfg.DigitDetail.ChannelTotal ≤ b.cap →
      GetAnalogChannelData (ReadDAT cfg b) num =
        .ok (specAnalogSeries b.data
          (NBof cfg.AnalogDetail.ChannelTotal cfg.DigitDetail.ChannelTotal)
          cfg.AnalogDetail.FactorsA cfg.AnalogDetail.FactorsB num
          (cfg.SampleDetail.getD 0 ⟨0, 0⟩).Number.toNat)) ∧
    (b.cap < (cfg.SampleDetail.getD 0 ⟨0, 0⟩).Number.toNat *
        NBof cfg.AnalogDetail.ChannelTotal cfg.DigitDetail.ChannelTotal →
      GetAnalogChannelData (ReadDAT cfg b) num = .error .panicSliceOutOfRange) := by
  obtain ⟨hfa, hfb, hsl, hsr, _⟩ := readCFG_ok_facts h
  have hsd : cfg.SampleDetail ≠ [] := by
    intro he
    rw [he] at hsl
    simp at hsl
    omega
  constructor
  · intro hcap
    rw [GetAnalog_reduce hdata hnum1 hnumA hsd]
    rw [extractLoop_ok (NBof_expand _ _) hnum1 hnumA (by omega) (by omega) _ 0
      (by simpa using hcap)]
    rw [specAnalogSeries_eq]
  · intro hcap
    rw [GetAnalog_reduce hdata hnum1 hnumA hsd]
    have hN1 : 1 ≤ (cfg.SampleDetail.getD 0 ⟨0, 0⟩).Number.toNat := by
      by_contra hc
      push_neg at hc
      have hz : (cfg.SampleDetail.getD 0 ⟨0, 0⟩).Number.toNat = 0 := by omega
      rw [hz] at hshort
      simp at hshort
    obtain ⟨rem, hrem⟩ : ∃ rem, (cfg.SampleDetail.getD 0 ⟨0, 0⟩).Number.toNat = rem + 1 :=
      ⟨(cfg.SampleDetail.getD 0 ⟨0, 0⟩).Number.toNat - 1, by omega⟩
    rw [hrem]
    refine extractLoop_panic (NBof_expand _ _) hnum1 hnumA (by omega) (by omega) rem 0 ?_
    have he : (0 + rem + 1) = rem + 1 := by omega
    rw [he]
    rw [hrem] at hcap
    exact hcap

theorem c3_short_buffer_witness :
    (GetAnalogChannelData (ReadDAT cfg1 ⟨[0, 0, 0, 0, 0, 0, 0, 0, 0], 503⟩) 1 =
      .ok [1]) ∧
    (GetAnalogChannelData (ReadDAT cfg3s ⟨[1, 2, 3, 4, 5], 507⟩) 1 =
      .error .panicSliceOutOfRange) :=
  ⟨((c3_short_buffer doc1 cfg1 ⟨[0, 0, 0, 0, 0, 0, 0, 0, 0], 503⟩ 1 (by decide) (by decide)
      (by decide) (by decide) (by decide)).1 (by decide)).trans (by decide),
   (c3_short_buffer doc3s cfg3s ⟨[1, 2, 3, 4, 5], 507⟩ 1 (by decide) (by decide)
      (by decide) (by decide) (by decide)).2 (by decide)⟩

/-- C8 (confirmed): a document whose sample-rate-entry-count line reads `0`
decodes exactly like the same document with that line reading `1`: the
declared 0 is coerced to 1 and one rate block is consumed either way.  The
line is the one the decoder reads the count from — index `3 + A + D` in
uint16 arithmetic — given that the header and channel phases decode. -/
theorem c8_zero_coercion (lines : List (List Char)) (st : HeaderState)
    (hst : readUpToChannels lines = .ok st)
    (h0 : lines.getD (m16 (3 + st.chA.ChannelTotal + st.chD.ChannelTotal)) [] = strL "0") :
    readCFGlines
        (lines.set (m16 (3 + st.chA.ChannelTotal + st.chD.ChannelTotal)) (strL "1")) =
      readCFGlines lines := by
  have hksome : lines[m16 (3 + st.chA.ChannelTotal + st.chD.ChannelTotal)]? =
      some (strL "0") := getD_eq_some (by decide) h0
  have hklen : m16 (3 + st.chA.ChannelTotal + st.chD.ChannelTotal) < lines.length :=
    (List.getElem?_eq_some.mp hksome).1
  have hk2AD : 2 + st.chA.ChannelTotal + st.chD.ChannelTotal ≤
      m16 (3 + st.chA.ChannelTotal + st.chD.ChannelTotal) :=
    zeroLine_beyond_channels hst hksome
  have hkub : m16 (3 + st.chA.ChannelTotal + st.chD.ChannelTotal) ≤
      3 + st.chA.ChannelTotal + st.chD.ChannelTotal := Nat.mod_le _ _
  have hr1 : readRateNum lines st.chA.ChannelTotal st.chD.ChannelTotal = .ok 1 :=
    (readRateNum_eval (n := 0) hksome (by decide)).trans (by decide)
  have hset : (lines.set (m16 (3 + st.chA.ChannelTotal + st.chD.ChannelTotal)) (strL "1"))[
      m16 (3 + st.chA.ChannelTotal + st.chD.ChannelTotal)]? = some (strL "1") :=
    List.getElem?_set_eq_of_lt _ hklen
  have hr2 : readRateNum
      (lines.set (m16 (3 + st.chA.ChannelTotal + st.chD.ChannelTotal)) (strL "1"))
      st.chA.ChannelTotal st.chD.ChannelTotal = .ok 1 :=
    (readRateNum_eval (n := 1) hset (by decide)).trans (by decide)
  unfold readCFGlines
  rw [readUpToChannels_frame hst hk2AD, hst]
  simp only [Bind.bind, Except.bind]
  unfold readTail
  refine bindCongr ((readFreq_frame ((m16_ne_of_small_gap (by omega) (by omega)).symm)))
    fun freq => ?_
  rw [hr1, hr2]
  simp only [Bind.bind, Except.bind]
  refine bindCongr (readRatesLoop_frame 1 0 [] (Or.inl (by omega))) fun rates => ?_
  refine bindCongr (readTimeLine_frame (m16_ne_of_small_gap (by omega) (by omega)))
    fun sT => ?_
  refine bindCongr (readTimeLine_frame (m16_ne_of_small_gap (by omega) (by omega)))
    fun tT => ?_
  refine bindCongr (readDatType_frame (m16_ne_of_small_gap (by omega) (by omega)))
    fun dft => ?_
  refine bindCongr (readTimeFactor_frame (m16_ne_of_small_gap (by omega) (by omega)))
    fun tf => ?_
  refine bindCongr (readOptional_frame (m16_ne_of_small_gap (by omega) (by omega)))
    fun codes => rfl

theorem c8_zero_coercion_witness :
    readCFGlines (doc8.set (m16 (3 + (hdrOf doc8).chA.ChannelTotal +
      (hdrOf doc8).chD.ChannelTotal)) (strL "1")) = readCFGlines doc8 :=
  c8_zero_coercion doc8 (hdrOf doc8) (by decide) (by decide)

end Comgo
